import Mathlib

/-!
Verification of the Feishu ↔ Clawdbot bridge (openclawLarkBridge).

This development shallowly embeds the message-processing pipeline of the
bridge: the dedup ledger (`isDuplicate`), URL extraction (`extractUrls`),
the group-chat gate (`shouldRespondInGroup`), the Markdown card builder
(`extractHeaderAndBody`, `convertTablesToList`, `buildCardElements`,
`buildMarkdownCard`), the chunker (`splitMarkdownIntoChunks`) and the
gateway protocol client message handler (`askStep`).

JavaScript strings are modelled as `List Char` (one `Char` per UTF-16 code
unit; all inputs considered here live in the BMP, where code units and code
points coincide).  `Nat` stands for JavaScript numbers in the places where
the source only ever computes with non-negative integers (timestamps,
lengths, thresholds).
-/

/-- The set matched by the JavaScript regexp class `\s` (also the set
trimmed by `String.prototype.trim`/`trimEnd`). -/
def jsWhitespace (c : Char) : Bool :=
  let n := c.toNat
  n == 9 || n == 10 || n == 11 || n == 12 || n == 13 || n == 32 ||
  n == 160 || n == 0x1680 || (0x2000 ≤ n && n ≤ 0x200A) ||
  n == 0x2028 || n == 0x2029 || n == 0x202F || n == 0x205F ||
  n == 0x3000 || n == 0xFEFF

/-- JavaScript `trimStart` on a sequence of code units. -/
def trimStartCh (l : List Char) : List Char := l.dropWhile jsWhitespace

/-- JavaScript `trimEnd` on a sequence of code units. -/
def trimEndCh (l : List Char) : List Char :=
  (l.reverse.dropWhile jsWhitespace).reverse

/-- JavaScript `trim` on a sequence of code units. -/
def trimCh (l : List Char) : List Char := trimEndCh (trimStartCh l)

/-- JavaScript `String.prototype.startsWith`. -/
def startsWithCh (p l : List Char) : Bool := p.isPrefixOf l

/-- JavaScript `String.prototype.endsWith`. -/
def endsWithCh (p l : List Char) : Bool := p.reverse.isPrefixOf l.reverse

/-- JavaScript `String.prototype.includes`. -/
def containsSub (pat : List Char) : List Char → Bool
  | [] => pat.isEmpty
  | c :: t => pat.isPrefixOf (c :: t) || containsSub pat t

/-- JavaScript `String.prototype.toLowerCase`, restricted to ASCII case
mapping (the only case mapping exercised by the inputs of the bridge). -/
def toLowerCh (l : List Char) : List Char := l.map Char.toLower

/-- JavaScript `String.prototype.split` with a one-character separator. -/
def splitOnCh (sep : Char) : List Char → List (List Char)
  | [] => [[]]
  | c :: rest =>
    let r := splitOnCh sep rest
    if c = sep then [] :: r
    else
      match r with
      | h :: t => (c :: h) :: t
      | [] => [[c]]

/-- `text.split('\n')`. -/
def splitLinesCh (l : List Char) : List (List Char) := splitOnCh '\n' l

/-- `lines.join('\n')`. -/
def joinLinesCh : List (List Char) → List Char
  | [] => []
  | [l] => l
  | l :: rest => l ++ '\n' :: joinLinesCh rest

/-- `text.replace(/\r\n/g, '\n')`. -/
def replaceCRLF : List Char → List Char
  | [] => []
  | '\r' :: '\n' :: rest => '\n' :: replaceCRLF rest
  | c :: rest => c :: replaceCRLF rest

/-- `String(s).trim()` as a `String` operation. -/
def jsTrimStr (s : String) : String := String.mk (trimCh s.data)

/-- `s.toLowerCase()` as a `String` operation (ASCII case mapping). -/
def jsToLower (s : String) : String := String.mk (toLowerCh s.data)

/-! ## Dedup ledger

Source: `isDuplicate` together with the module-level maps `seen`,
`processing` and `recentMessages` (bridge v3.3, lines 256–292).

The `processing` set is emptied by `setTimeout(..., 300000)` timers; the
model keeps, for each id, the instant at which its deletion timer is due
and regards the entry as present exactly until that instant. -/

/-- `SEEN_TTL_MS = 10 * 60 * 1000`. -/
def SEEN_TTL_MS : Nat := 10 * 60 * 1000

/-- `CONTENT_DEDUP_WINDOW_MS = 5000`. -/
def CONTENT_DEDUP_WINDOW_MS : Nat := 5000

/-- TTL of the in-flight `processing` entries (`setTimeout(..., 300000)`). -/
def PROCESSING_TTL_MS : Nat := 300000

/-- The three module-level collections backing `isDuplicate`:
`seen : Map<id, ts>`, `processing : Set<id>` (with the due time of its
deletion timer) and `recentMessages : Map<hash, {ts, id}>`. -/
structure DedupState where
  seen : List (String × Nat)
  processing : List (String × Nat)
  recent : List (String × Nat × String)
deriving DecidableEq

/-- The ledger at process start: all collections empty. -/
def emptyDedup : DedupState := ⟨[], [], []⟩

/-- `isDuplicate(messageId, content = '')` evaluated at instant `now`.
Returns the boolean result and the updated ledger.  `now - ts` on `Nat`
truncates at zero exactly where the JavaScript difference would be
negative; in both cases the purge condition `now - ts > TTL` is false, so
the two agree. -/
def isDuplicate (now : Nat) (messageId content : String) (st : DedupState) :
    Bool × DedupState :=
  -- 清理过期记录
  let seen1 := st.seen.filter (fun e => !(decide (SEEN_TTL_MS < now - e.2)))
  let recent1 := st.recent.filter
    (fun e => !(decide (CONTENT_DEDUP_WINDOW_MS < now - e.2.1)))
  if messageId = "" then (false, ⟨seen1, st.processing, recent1⟩)
  else if (seen1.any (fun e => e.1 == messageId)) ||
          (st.processing.any (fun e => e.1 == messageId && decide (now < e.2))) then
    -- 检查消息ID
    (true, ⟨seen1, st.processing, recent1⟩)
  else
    -- 检查内容重复（防止消息ID变化但内容相同）: 取前100字符作为指纹
    let contentHash := String.mk (content.data.take 100)
    if content ≠ "" && recent1.any (fun e => e.1 == contentHash) then
      (true, ⟨seen1, st.processing, recent1⟩)
    else
      let recent2 :=
        if content ≠ "" then recent1 ++ [(contentHash, now, messageId)]
        else recent1
      (false, ⟨seen1 ++ [(messageId, now)],
               st.processing ++ [(messageId, now + PROCESSING_TTL_MS)],
               recent2⟩)

/-- A sequence of `isDuplicate` calls sharing one `messageId`; each call is
a pair `(now, content)`.  Returns the list of results in order. -/
def runDedupCalls (messageId : String) :
    List (Nat × String) → DedupState → List Bool × DedupState
  | [], st => ([], st)
  | (t, c) :: rest, st =>
    let r := isDuplicate t messageId c st
    let rs := runDedupCalls messageId rest r.2
    (r.1 :: rs.1, rs.2)

/-! ## URL extraction

Source: `extractUrls` (lines 122–142): scan with
`/https?:\/\/[^\s<>()\]\}]+/g`, strip trailing punctuation with
`/[),.。!！?？;；]+$/`, then dedupe keeping first-seen order. -/

/-- A code unit admitted by the regexp class `[^\s<>()\]\}]`. -/
def urlChar (c : Char) : Bool :=
  !(jsWhitespace c || c == '<' || c == '>' || c == '(' || c == ')' ||
    c == ']' || c == '}')

/-- Try to match `https?:\/\/[^\s<>()\]\}]+` at the head of `l`; on success
return the match and the remaining input. -/
def matchUrlAt (l : List Char) : Option (List Char × List Char) :=
  let n : Option Nat :=
    if startsWithCh "https://".data l then some 8
    else if startsWithCh "http://".data l then some 7
    else none
  match n with
  | none => none
  | some k =>
    let run := (l.drop k).takeWhile urlChar
    if run.isEmpty then none
    else some (l.take k ++ run, (l.drop k).dropWhile urlChar)

/-- The global scan of the URL regexp: find successive non-overlapping
matches, resuming after each match (or one position later on failure).  A
successful match `(u, after)` satisfies `after = l.drop u.length`, so
resuming at `after` is done by skipping the remaining `u.length - 1`
characters of the tail. -/
def scanUrlsGo : Nat → List Char → List (List Char)
  | _, [] => []
  | skip + 1, _ :: rest => scanUrlsGo skip rest
  | 0, c :: rest =>
    match matchUrlAt (c :: rest) with
    | some (u, _) => u :: scanUrlsGo (u.length - 1) rest
    | none => scanUrlsGo 0 rest

/-- The list of raw matches of `/https?:\/\/[^\s<>()\]\}]+/g` over the
input, in order. -/
def scanUrls (l : List Char) : List (List Char) := scanUrlsGo 0 l

/-- `u.replace(/[),.。!！?？;；]+$/g, '')`. -/
def stripTrailingPunct (u : List Char) : List Char :=
  (u.reverse.dropWhile
    (fun c => c == ')' || c == ',' || c == '.' || c == '。' || c == '!' ||
      c == '！' || c == '?' || c == '？' || c == ';' || c == '；')).reverse

/-- Dedupe keeping first-seen order, skipping empty strings (the
`if (!u || seen.has(u)) continue` loop). -/
def dedupeKeepOrder : List (List Char) → List (List Char) → List (List Char)
  | [], _ => []
  | u :: rest, seenAcc =>
    if u.isEmpty || seenAcc.contains u then dedupeKeepOrder rest seenAcc
    else u :: dedupeKeepOrder rest (u :: seenAcc)

/-- `extractUrls(text)`. -/
def extractUrls (text : String) : List String :=
  let urls := (scanUrls text.data).map stripTrailingPunct
  (dedupeKeepOrder urls []).map String.mk

/-! ## Route detection and the group gate

Source: `detectCodeRoute`, `detectSearchRoute`, `detectLinkRoute`,
`isMentioningBot`, `shouldRespondInGroup` (bridge v3.3, lines 156–168,
204–231, 1484–1528).  The configuration constants carry the default values
of the corresponding environment variables. -/

/-- Default of `FEISHU_CODE_PREFIXES` (`'coding:,@code,@coding,/code'`). -/
def FEISHU_CODE_PREFIX_LIST : List String := ["coding:", "@code", "@coding", "/code"]

/-- Default of `FEISHU_SEARCH_PREFIXES` (`'search:,@search,研究:,@research'`). -/
def FEISHU_SEARCH_PREFIX_LIST : List String := ["search:", "@search", "研究:", "@research"]

/-- Default of `FEISHU_LINK_PREFIXES` (`'link:,链接:,解析:,url:'`). -/
def FEISHU_LINK_PREFIX_LIST : List String := ["link:", "链接:", "解析:", "url:"]

/-- Default of `FEISHU_BOT_MENTION_NAMES`. -/
def FEISHU_BOT_MENTION_NAME_LIST : List String :=
  ["clawdt", "clawdbot", "openclaw", "机器人", "助手", "智能体"]

/-- Default of `FEISHU_GROUP_MENTION_ONLY` (`'0'`, i.e. off). -/
def FEISHU_GROUP_MENTION_ONLY : Bool := false

/-- Default of `FEISHU_BOT_OPEN_ID` (unset). -/
def FEISHU_BOT_OPEN_ID : String := ""

/-- Default of `FEISHU_BOT_USER_ID` (unset). -/
def FEISHU_BOT_USER_ID : String := ""

/-- Generic prefix scan shared by `detectCodeRoute` and
`detectSearchRoute`: on the first configured prefix that matches
case-insensitively, return the trimmed remainder. -/
def findRouteMatch (prefixes : List String) (trimmed : String) : Option String :=
  match prefixes with
  | [] => none
  | p :: rest =>
    if p = "" then findRouteMatch rest trimmed
    else if startsWithCh (jsToLower p).data (jsToLower trimmed).data then
      some (jsTrimStr (String.mk (trimmed.data.drop p.data.length)))
    else findRouteMatch rest trimmed

/-- `detectCodeRoute(text)`: `(matched, text)`. -/
def detectCodeRoute (text : String) : Bool × String :=
  let trimmed := jsTrimStr text
  if trimmed = "" then (false, trimmed)
  else
    match findRouteMatch FEISHU_CODE_PREFIX_LIST trimmed with
    | some rest => (true, rest)
    | none => (false, trimmed)

/-- `detectSearchRoute(text)`: `(matched, text)`. -/
def detectSearchRoute (text : String) : Bool × String :=
  let trimmed := jsTrimStr text
  if trimmed = "" then (false, trimmed)
  else
    match findRouteMatch FEISHU_SEARCH_PREFIX_LIST trimmed with
    | some rest => (true, rest)
    | none => (false, trimmed)

/-- `detectLinkRoute(text)`: `(matched, urls)`. -/
def detectLinkRoute (text : String) : Bool × List String :=
  let trimmed := jsTrimStr text
  if trimmed = "" then (false, [])
  else
    match findRouteMatch FEISHU_LINK_PREFIX_LIST trimmed with
    | some rest => (true, extractUrls rest)
    | none => (false, extractUrls trimmed)

/-- One element of the inbound `mentions` array: either a bare string or an
object carrying optional `name`/`text`/`key` fields and an `id` that is
either a string or an object whose string values are collected. -/
inductive MentionEntry where
  | str (s : String)
  | obj (name text key idStr : Option String) (idVals : List String)
deriving DecidableEq

/-- The candidate strings gathered from one mention entry, in source
order: the bare string, `name`, `text`, `key`, string `id`, object `id`
values. -/
def mentionCandidates : MentionEntry → List String
  | .str s => [s]
  | .obj name text key idStr idVals =>
    name.toList ++ text.toList ++ key.toList ++ idStr.toList ++ idVals

/-- `raw.trim().toLowerCase().replace(/^@+/, '')`. -/
def normalizeMentionCandidate (raw : String) : String :=
  String.mk ((toLowerCh (trimCh raw.data)).dropWhile (· = '@'))

/-- `isMentioningBot(mentions)` under the default configuration (no bot
open-id/user-id configured). -/
def isMentioningBot (mentions : List MentionEntry) : Bool :=
  mentions.any fun m =>
    (mentionCandidates m).any fun raw =>
      let s := normalizeMentionCandidate raw
      if s = "" then false
      else
        (decide (FEISHU_BOT_OPEN_ID ≠ "") && s == jsToLower FEISHU_BOT_OPEN_ID) ||
        (decide (FEISHU_BOT_USER_ID ≠ "") && s == jsToLower FEISHU_BOT_USER_ID) ||
        FEISHU_BOT_MENTION_NAME_LIST.any (fun n => s == n || containsSub n.data s.data)

/-- The wake-word alternatives of
`/^(clawdt|clawdbot|openclaw|bot|机器人|助手|智能体)[\s,:，：]/i`. -/
def WAKE_WORD_LIST : List String :=
  ["clawdt", "clawdbot", "openclaw", "bot", "机器人", "助手", "智能体"]

/-- A code unit of the class `[\s,:，：]`. -/
def wakeSeparator (c : Char) : Bool :=
  jsWhitespace c || c == ',' || c == ':' || c == '，' || c == '：'

/-- The wake-word test of `shouldRespondInGroup`. -/
def wakeWordTest (s : String) : Bool :=
  let low := (toLowerCh s.data)
  WAKE_WORD_LIST.any fun k =>
    startsWithCh k.data low &&
      (match low.drop k.data.length with
       | c :: _ => wakeSeparator c
       | [] => false)

/-- `shouldRespondInGroup(text, mentions)` (bridge v3.3, lines
1484–1502). -/
def shouldRespondInGroup (text : String) (mentions : List MentionEntry) : Bool :=
  let trimmed := jsTrimStr text
  if trimmed = "" then false
  else if FEISHU_GROUP_MENTION_ONLY then isMentioningBot mentions
  else if isMentioningBot mentions then true
  else if (detectCodeRoute trimmed).1 then true
  else if (detectSearchRoute trimmed).1 then true
  else if (detectLinkRoute trimmed).1 then true
  else if wakeWordTest trimmed then true
  else false

/-! ## Markdown tables and card elements

Source: `isTableRow`, `isTableSeparator`, `splitTableRow`,
`sanitizeColumnName`, `buildTableElement`, `convertTablesToList`,
`buildCardElements` (bridge v3.3, lines 717–911), under the default
configuration `FEISHU_TABLE_ENABLED = '1'`. -/

/-- Default of `FEISHU_TABLE_ENABLED` (`'1'`). -/
def FEISHU_TABLE_ENABLED : Bool := true

/-- `isTableRow(line)`. -/
def isTableRowCh (line : List Char) : Bool :=
  let trimmed := trimCh line
  startsWithCh ['|'] trimmed && endsWithCh ['|'] trimmed &&
    decide (2 ≤ ((splitOnCh '|' trimmed).filter (fun c => !(trimCh c).isEmpty)).length)

/-- A cell accepted by the separator test `/^:?-{3,}:?$/`. -/
def sepCellStrict (l : List Char) : Bool :=
  let l1 := match l with
    | ':' :: rest => rest
    | _ => l
  let l2 := match l1.reverse with
    | ':' :: rest => rest.reverse
    | _ => l1
  decide (3 ≤ l2.length) && l2.all (· == '-')

/-- `isTableSeparator(line)`. -/
def isTableSepCh (line : List Char) : Bool :=
  let trimmed := trimCh line
  startsWithCh ['|'] trimmed && endsWithCh ['|'] trimmed &&
    (let cells := ((splitOnCh '|' trimmed).filter (fun c => !(trimCh c).isEmpty)).map trimCh
     decide (2 ≤ cells.length) && cells.all sepCellStrict)

/-- `splitTableRow(line)`. -/
def splitTableRowCh (line : List Char) : List (List Char) :=
  let trimmed := trimCh line
  if startsWithCh ['|'] trimmed && endsWithCh ['|'] trimmed then
    (splitOnCh '|' (trimmed.drop 1).dropLast).map trimCh
  else []

/-- One character allowed to stay by `/[^a-z0-9_]+/g`. -/
def sanitizeAllowed (c : Char) : Bool :=
  (decide ('a' ≤ c) && decide (c ≤ 'z')) ||
  (decide ('0' ≤ c) && decide (c ≤ '9')) || c == '_'

/-- `s.replace(/[^a-z0-9_]+/g, '_')`: each maximal run of disallowed
characters becomes one underscore.  The flag records whether the previous
character was part of such a run. -/
def sanitizeRun (inRun : Bool) : List Char → List Char
  | [] => []
  | c :: rest =>
    if sanitizeAllowed c then c :: sanitizeRun false rest
    else if inRun then sanitizeRun true rest
    else '_' :: sanitizeRun true rest

/-- The `while (used.has(candidate))` uniquification loop of
`sanitizeColumnName`.  At most `used.length + 1` rounds are ever needed
because all candidates are distinct; the fuel makes that explicit. -/
def uniquifyName (base : String) (used : List String) : String :=
  go (used.length + 1) base 2
where
  go : Nat → String → Nat → String
    | 0, candidate, _ => candidate
    | fuel + 1, candidate, counter =>
      if used.contains candidate then
        go fuel (base ++ "_" ++ toString counter) (counter + 1)
      else candidate

/-- `sanitizeColumnName(name, index, used)`: the sanitized unique name,
and the updated `used` set. -/
def sanitizeColumnName (name : String) (index : Nat) (used : List String) :
    String × List String :=
  let base0 := String.mk (sanitizeRun false (toLowerCh name.data))
  let base :=
    if base0 = "" ||
        !(match base0.data with
          | c :: _ => decide ('a' ≤ c) && decide (c ≤ 'z')
          | [] => false) then
      "col_" ++ toString (index + 1)
    else base0
  let candidate := uniquifyName base used
  (candidate, used ++ [candidate])

/-- A card element: either a `markdown` block or a `table` block.  For the
table, `columns` keeps `(name, display_name)` per column and each row keeps
its `(column name, cell)` pairs in column order; `pageSize` is the computed
`page_size`.  The remaining `buildTableElement` fields are configuration
constants independent of the input and are not modelled. -/
inductive CardElement where
  | markdown (content : String)
  | table (columns : List (String × String)) (rows : List (List (String × String)))
      (pageSize : Nat)
deriving DecidableEq

/-- The `headers.map((h, idx) => ...)` column construction of
`buildTableElement`, threading the `used` set. -/
def buildColumns (headers : List (List Char)) : List (String × String) :=
  go 0 [] headers
where
  go : Nat → List String → List (List Char) → List (String × String)
    | _, _, [] => []
    | idx, used, h :: rest =>
      let r := sanitizeColumnName (String.mk h) idx used
      (r.1, if h.isEmpty then "列" ++ toString (idx + 1) else String.mk h) ::
        go (idx + 1) r.2 rest

/-- One row object: `row[col.name] = (cells[idx] ?? '').toString()`. -/
def buildRowObject (columns : List (String × String)) (cells : List (List Char)) :
    List (String × String) :=
  go 0 columns
where
  go : Nat → List (String × String) → List (String × String)
    | _, [] => []
    | idx, col :: rest =>
      (col.1, String.mk ((cells.get? idx).getD [])) :: go (idx + 1) rest

/-- `buildTableElement(headers, rows)`. -/
def buildTableElement (headers : List (List Char)) (rows : List (List (List Char))) :
    Option CardElement :=
  if headers.isEmpty || rows.isEmpty then none
  else
    let columns := buildColumns headers
    let rowObjects := rows.map (buildRowObject columns)
    some (.table columns rowObjects (min 10 (max 1 rowObjects.length)))

/-- A cell accepted by the laxer separator test `/^[-:]+$/` used inside
`convertTablesToList`. -/
def sepCellLax (l : List Char) : Bool :=
  !l.isEmpty && l.all (fun c => c == '-' || c == ':')

/-- `parts.join(' | ')` and friends: join with an arbitrary separator. -/
def joinSepCh (sep : List Char) : List (List Char) → List Char
  | [] => []
  | [l] => l
  | l :: rest => l ++ sep ++ joinSepCh sep rest

/-- The line loop of `convertTablesToList`, with the nullable `headers`
state.  In the bullet branch, `key = headers[idx]`, and a pair is emitted
as `key: cell` when both are non-empty, as the bare cell when only the
cell is. -/
def convertLoop (headers : Option (List (List Char))) :
    List (List Char) → List (List Char)
  | [] => []
  | line :: rest =>
    let trimmed := trimCh line
    if startsWithCh ['|'] trimmed && endsWithCh ['|'] trimmed then
      let cells := ((splitOnCh '|' trimmed).filter (fun c => !(trimCh c).isEmpty)).map trimCh
      if cells.all sepCellLax then convertLoop headers rest
      else
        match headers with
        | none => convertLoop (some cells) rest
        | some hs =>
          let parts := (cells.enum.map fun ci =>
            match hs.get? ci.1 with
            | some k => if !k.isEmpty && !ci.2.isEmpty then k ++ ':' :: ' ' :: ci.2
                        else ci.2
            | none => ci.2).filter (fun p => !p.isEmpty)
          (if parts.isEmpty then []
           else [('•' :: ' ' :: []) ++ joinSepCh (' ' :: '|' :: ' ' :: []) parts]) ++
            convertLoop (some hs) rest
    else line :: convertLoop none rest

/-- `convertTablesToList(text)`. -/
def convertTablesCh (text : List Char) : List Char :=
  if text.isEmpty then []
  else joinLinesCh (convertLoop none (splitLinesCh text))

/-- `convertTablesToList` as a `String` operation. -/
def convertTablesToList (text : String) : String :=
  String.mk (convertTablesCh text.data)

/-- The fence marker `'```'`. -/
def fenceMarker : List Char := "```".data

/-- `s || ' '` on strings: replace the empty string by a single space. -/
def orSpaceStr (s : String) : String := if s = "" then " " else s

/-- The mutable state of the `buildCardElements` line loop. -/
structure CardSt where
  elements : List CardElement
  buffer : List (List Char)
  tableCount : Nat
  inCodeFence : Bool
deriving DecidableEq

/-- The `flush()` closure of `buildCardElements`. -/
def cardFlush (st : CardSt) : CardSt :=
  let content := trimCh (joinLinesCh st.buffer)
  { st with
    elements := st.elements ++
      (if content.isEmpty then [] else [.markdown (String.mk content)]),
    buffer := [] }

/-- The `for (let i = 0; ...)` loop of `buildCardElements`.  A detected
table consumes its header line, separator line and data rows, after which
the loop resumes at the first line past the rows (`i = j - 1; continue`);
in the fall-through cases the header line is pushed to the buffer and the
loop equally resumes past the consumed rows. -/
def cardLoopGo : Nat → CardSt → List (List Char) → CardSt
  | _, st, [] => st
  | skip + 1, st, _ :: rest => cardLoopGo skip st rest
  | 0, st, line :: rest =>
    if startsWithCh fenceMarker (trimCh line) then
      cardLoopGo 0 { st with inCodeFence := !st.inCodeFence,
                             buffer := st.buffer ++ [line] } rest
    else if st.inCodeFence then
      cardLoopGo 0 { st with buffer := st.buffer ++ [line] } rest
    else if isTableRowCh line && isTableSepCh ((rest.head?).getD []) then
      let headers := splitTableRowCh line
      let rowLines := (rest.drop 1).takeWhile isTableRowCh
      let rows := rowLines.map splitTableRowCh
      -- resuming at `i = j` skips the separator and the data rows
      let skipRows := 1 + rowLines.length
      if !headers.isEmpty && !rows.isEmpty then
        if st.tableCount < 5 then
          match buildTableElement headers rows with
          | some el =>
            let st1 := cardFlush st
            cardLoopGo skipRows
              { st1 with elements := st1.elements ++ [el],
                         tableCount := st1.tableCount + 1 } rest
          | none =>
            cardLoopGo skipRows { st with buffer := st.buffer ++ [line] } rest
        else
          -- `lines[i + 1]` is read after `i = j - 1`, so it denotes the
          -- first line after the table (or '' at end of input), not the
          -- separator line.
          let tableBlock := joinLinesCh
            ([line, ((rest.drop 1).drop rowLines.length).head?.getD []] ++
              rows.map (fun r =>
                ('|' :: ' ' :: joinSepCh (' ' :: '|' :: ' ' :: []) r) ++ [' ', '|']))
          cardLoopGo skipRows
            { st with buffer := st.buffer ++ [convertTablesCh tableBlock] } rest
      else
        cardLoopGo skipRows { st with buffer := st.buffer ++ [line] } rest
    else cardLoopGo 0 { st with buffer := st.buffer ++ [line] } rest

/-- The `for` loop of `buildCardElements` started at the first line. -/
def cardLoop (st : CardSt) (lines : List (List Char)) : CardSt :=
  cardLoopGo 0 st lines

/-- `buildCardElements(text)` under the default configuration. -/
def buildCardElements (text : String) : List CardElement :=
  if text = "" then []
  else if !FEISHU_TABLE_ENABLED then
    [.markdown (orSpaceStr (convertTablesToList text))]
  else
    let st := cardFlush (cardLoop ⟨[], [], 0, false⟩ (splitLinesCh text.data))
    if st.elements.isEmpty then [.markdown (orSpaceStr (convertTablesToList text))]
    else st.elements

/-! ## Card title extraction

Source: `extractHeaderAndBody` and `buildMarkdownCard` (bridge v3.3,
lines 913–942 and 1065–1092).

The regexps of `extractHeaderAndBody` are written in the source with
doubled backslashes: `/^[-*]\\s+/`, `/^\\d+\\.\\s+/`, `/^#{1,6}\\s+(.+)$/`
and `/^\\*\\*(.+)\\*\\*$/`.  Inside a regexp literal `\\` matches one
literal backslash, so these patterns do not denote `\s`, `\d` or escaped
asterisks; they are embedded here with their actual JavaScript
semantics. -/

/-- `/^[-*]\\s+/.test(s)`: one of `-`/`*`, one literal backslash, then at
least one letter `s`. -/
def listItemBugTest (l : List Char) : Bool :=
  match l with
  | c :: b :: d :: _ => (c == '-' || c == '*') && b == '\\' && d == 's'
  | _ => false

/-- `/^\\d+\\.\\s+/.test(s)`: a literal backslash, one or more `d`, a
literal backslash, any one character, a literal backslash, then at least
one `s`. -/
def numberedBugTest (l : List Char) : Bool :=
  match l with
  | '\\' :: rest =>
    let ds := rest.takeWhile (· == 'd')
    !ds.isEmpty &&
      (match rest.dropWhile (· == 'd') with
       | '\\' :: _ :: '\\' :: 's' :: _ => true
       | _ => false)
  | _ => false

/-- `s.match(/^#{1,6}\\s+(.+)$/)`: one to six `#`, one literal backslash,
one or more `s` (the greedy run gives one `s` back when the capture would
otherwise be empty), then the captured remainder. -/
def headingBugCapture (l : List Char) : Option (List Char) :=
  let hashes := l.takeWhile (· == '#')
  if hashes.isEmpty || decide (6 < hashes.length) then none
  else
    match l.dropWhile (· == '#') with
    | '\\' :: r2 =>
      let srun := r2.takeWhile (· == 's')
      if srun.isEmpty then none
      else if srun.length < r2.length then some (r2.drop srun.length)
      else if 2 ≤ srun.length then some (r2.drop (srun.length - 1))
      else none
    | _ => none

/-- `s.match(/^\\*\\*(.+)\\*\\*$/)`: `\\*` is zero or more literal
backslashes, so the pattern matches every non-empty string; the greedy
leading runs consume the initial backslashes except that the capture keeps
at least one character. -/
def boldBugCapture (l : List Char) : Option (List Char) :=
  if l.isEmpty then none
  else some (l.drop (min (l.takeWhile (· == '\\')).length (l.length - 1)))

/-- `s.match(/^__(.+)__$/)` (this one is written with ordinary
semantics in the source, but is only reached when the previous pattern
failed, i.e. never on a non-empty line). -/
def underscoreCapture (l : List Char) : Option (List Char) :=
  if startsWithCh ['_', '_'] l && endsWithCh ['_', '_'] l &&
      decide (5 ≤ l.length) then
    some ((l.drop 2).dropLast.dropLast)
  else none

/-- `extractHeaderAndBody(text)`: `(title, body)`. -/
def extractHeaderAndBody (text : String) : String × String :=
  if text = "" then ("", "")
  else
    let lines := splitLinesCh text.data
    match lines.findIdx? (fun l => !(trimCh l).isEmpty) with
    | none => ("", text)
    | some idx =>
      let first := trimCh ((lines.get? idx).getD [])
      if first.isEmpty then ("", text)
      else if startsWithCh fenceMarker first then ("", text)
      else if listItemBugTest first || numberedBugTest first then ("", text)
      else if startsWithCh ['|'] first then ("", text)
      else
        let title :=
          match headingBugCapture first with
          | some t => trimCh t
          | none =>
            match boldBugCapture first with
            | some c => trimCh c
            | none =>
              match underscoreCapture first with
              | some c => trimCh c
              | none => if first.length ≤ 80 then first else []
        if title.isEmpty then ("", text)
        else
          let bodyLines := (lines.take idx ++ lines.drop (idx + 1)).dropWhile
            (fun l => (trimCh l).isEmpty)
          (String.mk title, String.mk (joinLinesCh bodyLines))

/-- The input-dependent part of the interactive card built by
`buildMarkdownCard`: the optional header title and the body elements. -/
structure MarkdownCard where
  title : Option String
  elements : List CardElement
deriving DecidableEq

/-- `buildMarkdownCard(text)`. -/
def buildMarkdownCard (text : String) : MarkdownCard :=
  let r := extractHeaderAndBody text
  let processed := r.2
  let els := buildCardElements processed
  { title := if r.1 ≠ "" then some r.1 else none,
    elements := if els.isEmpty then [.markdown (orSpaceStr processed)] else els }

/-! ## Chunking

Source: `splitMarkdownIntoChunks(text, maxChars)` (bridge v3.3, lines
1147–1209).  `Math.floor(maxChars * 0.75)` is `(3 * maxChars) / 4` for a
natural `maxChars`. -/

/-- The loop state of `splitMarkdownIntoChunks`: emitted chunks, current
buffer (with its tracked joined length `bufLen`), fence state and the most
recent opening fence line. -/
structure SplitSt where
  chunks : List (List Char)
  buf : List (List Char)
  bufLen : Nat
  inFence : Bool
  fenceLine : List Char
deriving DecidableEq

/-- The `pushChunk()` closure: join the buffer, trim its end, keep it only
if non-empty, and reset the buffer. -/
def pushChunk (st : SplitSt) : SplitSt :=
  let out := trimEndCh (joinLinesCh st.buf)
  { st with
    chunks := st.chunks ++ (if out.isEmpty then [] else [out]),
    buf := [], bufLen := 0 }

/-- The fence bookkeeping at the top of the loop body: toggle `inFence`
on a line whose trimmed form starts with the fence marker, remembering the
opening line (with its language hint). -/
def fencePhase (line : List Char) (st : SplitSt) : SplitSt :=
  if startsWithCh fenceMarker (trimCh line) then
    if !st.inFence then { st with inFence := true, fenceLine := trimCh line }
    else { st with inFence := false }
  else st

/-- The `wouldExceed && buf.length > 0` block: flush the buffer, closing
and reopening the fence around the split when inside one. -/
def overflowPhase (maxChars : Nat) (line : List Char) (st : SplitSt) : SplitSt :=
  if decide (maxChars < st.bufLen + (line.length + 1)) && !st.buf.isEmpty then
    if st.inFence then
      -- Close fence so each chunk is valid markdown, then reopen.
      let p := pushChunk { st with buf := st.buf ++ [fenceMarker] }
      { p with buf := [st.fenceLine], bufLen := st.fenceLine.length + 1 }
    else pushChunk st
  else st

/-- `buf.push(line); bufLen += extra`. -/
def appendPhase (line : List Char) (st : SplitSt) : SplitSt :=
  { st with buf := st.buf ++ [line], bufLen := st.bufLen + (line.length + 1) }

/-- Prefer splitting at paragraph boundaries when possible: flush once the
buffer holds at least `Math.floor(maxChars * 0.75)` characters and the
next line is absent or blank, outside fences. -/
def paragraphPhase (maxChars : Nat) (next : Option (List Char)) (st : SplitSt) :
    SplitSt :=
  if !st.inFence && decide ((3 * maxChars) / 4 ≤ st.bufLen) &&
      (match next with
       | none => true
       | some n => (trimCh n).isEmpty) then
    pushChunk st
  else st

/-- One iteration of the line loop of `splitMarkdownIntoChunks`; `next` is
`lines[i + 1]`.  The four phases are the four successive statement groups
of the loop body. -/
def splitStep (maxChars : Nat) (line : List Char) (next : Option (List Char))
    (st : SplitSt) : SplitSt :=
  paragraphPhase maxChars next
    (appendPhase line (overflowPhase maxChars line (fencePhase line st)))

/-- The line loop itself. -/
def splitLoop (maxChars : Nat) : List (List Char) → SplitSt → SplitSt
  | [], st => st
  | l :: rest, st => splitLoop maxChars rest (splitStep maxChars l rest.head? st)

/-- The initial loop state. -/
def splitInit : SplitSt :=
  { chunks := [], buf := [], bufLen := 0, inFence := false, fenceLine := fenceMarker }

/-- `splitMarkdownIntoChunks(text, maxChars)`. -/
def splitMarkdownIntoChunks (text : String) (maxChars : Nat) : List String :=
  let src := replaceCRLF text.data
  if src.isEmpty then []
  else if decide (src.length ≤ maxChars) then [String.mk src]
  else
    let lines := splitLinesCh src
    let st := splitLoop maxChars lines splitInit
    let st := if st.buf.isEmpty then st else pushChunk st
    -- Safety: never return an empty list if there was input.
    if st.chunks.isEmpty then [String.mk (src.take maxChars)]
    else st.chunks.map String.mk

/-! ### Instrumented chunker

`splitMarkdownIntoChunksMarked` is the same algorithm, additionally
tagging each emitted chunk with whether the split that ended it happened
inside a fence (i.e. whether the chunk received a synthetic closing fence
and the following chunk a synthetic reopening fence line).  It exists only
to express, in the words of the specification, which fence lines of the
output are synthetic. -/

/-- Loop state of the instrumented chunker. -/
structure SplitStM where
  chunks : List (List Char × Bool)
  buf : List (List Char)
  bufLen : Nat
  inFence : Bool
  fenceLine : List Char
deriving DecidableEq

/-- `pushChunk()` with a tag recording an in-fence split. -/
def pushChunkM (tag : Bool) (st : SplitStM) : SplitStM :=
  let out := trimEndCh (joinLinesCh st.buf)
  { st with
    chunks := st.chunks ++ (if out.isEmpty then [] else [(out, tag)]),
    buf := [], bufLen := 0 }

/-- The fence bookkeeping of the instrumented loop. -/
def fencePhaseM (line : List Char) (st : SplitStM) : SplitStM :=
  if startsWithCh fenceMarker (trimCh line) then
    if !st.inFence then { st with inFence := true, fenceLine := trimCh line }
    else { st with inFence := false }
  else st

/-- The overflow block of the instrumented loop, tagging in-fence splits. -/
def overflowPhaseM (maxChars : Nat) (line : List Char) (st : SplitStM) : SplitStM :=
  if decide (maxChars < st.bufLen + (line.length + 1)) && !st.buf.isEmpty then
    if st.inFence then
      let p := pushChunkM true { st with buf := st.buf ++ [fenceMarker] }
      { p with buf := [st.fenceLine], bufLen := st.fenceLine.length + 1 }
    else pushChunkM false st
  else st

/-- `buf.push(line)` in the instrumented loop. -/
def appendPhaseM (line : List Char) (st : SplitStM) : SplitStM :=
  { st with buf := st.buf ++ [line], bufLen := st.bufLen + (line.length + 1) }

/-- The paragraph-boundary flush of the instrumented loop. -/
def paragraphPhaseM (maxChars : Nat) (next : Option (List Char)) (st : SplitStM) :
    SplitStM :=
  if !st.inFence && decide ((3 * maxChars) / 4 ≤ st.bufLen) &&
      (match next with
       | none => true
       | some n => (trimCh n).isEmpty) then
    pushChunkM false st
  else st

/-- One iteration of the instrumented loop. -/
def splitStepM (maxChars : Nat) (line : List Char) (next : Option (List Char))
    (st : SplitStM) : SplitStM :=
  paragraphPhaseM maxChars next
    (appendPhaseM line (overflowPhaseM maxChars line (fencePhaseM line st)))

/-- The instrumented line loop. -/
def splitLoopM (maxChars : Nat) : List (List Char) → SplitStM → SplitStM
  | [], st => st
  | l :: rest, st => splitLoopM maxChars rest (splitStepM maxChars l rest.head? st)

/-- `splitMarkdownIntoChunks` with tagged chunks. -/
def splitMarkdownIntoChunksMarked (text : String) (maxChars : Nat) :
    List (List Char × Bool) :=
  let src := replaceCRLF text.data
  if src.isEmpty then []
  else if decide (src.length ≤ maxChars) then [(src, false)]
  else
    let lines := splitLinesCh src
    let st := splitLoopM maxChars lines
      { chunks := [], buf := [], bufLen := 0, inFence := false, fenceLine := fenceMarker }
    let st := if st.buf.isEmpty then st else pushChunkM false st
    if st.chunks.isEmpty then [(src.take maxChars, false)]
    else st.chunks

/-- The reconstruction described by the specification: walk the chunks in
order; from a chunk that follows an in-fence split drop its first line
(the synthetic reopening fence line); from a chunk whose own split was
in-fence drop its last line (the synthetic closing fence); keep all other
lines. -/
def collectReconLines : Bool → List (List Char × Bool) → List (List Char)
  | _, [] => []
  | prevFence, (c, tag) :: rest =>
    let ls := splitLinesCh c
    let ls := if prevFence then ls.drop 1 else ls
    let ls := if tag then ls.dropLast else ls
    ls ++ collectReconLines tag rest

/-- Concatenation of all chunks after removal of the synthetic fence
terminators/openers, rejoined on line boundaries. -/
def removeSyntheticMarkers (mcs : List (List Char × Bool)) : List Char :=
  joinLinesCh (collectReconLines false mcs)

/-! ### Segment decomposition of the chunker output

`Seg` describes one emitted chunk: an optional synthetic reopening fence
line, the consecutive original lines it carries, and whether a synthetic
closing fence was appended. -/

/-- One chunk of the splitter, described against the original lines. -/
structure Seg where
  reopen : Option (List Char)
  body : List (List Char)
  closed : Bool

/-- The text of the chunk a `Seg` describes. -/
def renderSeg (sg : Seg) : List Char :=
  trimEndCh (joinLinesCh
    (sg.reopen.toList ++ sg.body ++ (if sg.closed then [fenceMarker] else [])))

/-- A reopening fence line is present exactly when the previous split
happened inside a fence, and is itself a fence line. -/
def prefOk (expect : Bool) (p : Option (List Char)) : Prop :=
  if expect then ∃ f, p = some f ∧ startsWithCh fenceMarker f = true
  else p = none

/-- Chunks alternate correctly: each carries a reopening fence line iff
the chunk before it was closed inside a fence. -/
def chainFrom : Bool → List Seg → Prop
  | _, [] => True
  | e, sg :: rest => prefOk e sg.reopen ∧ chainFrom sg.closed rest

/-- The expectation after the last element of `segs` (whether the next
chunk must carry a reopening fence line). -/
def lastClosed (e : Bool) (segs : List Seg) : Bool :=
  ((segs.getLast?).map Seg.closed).getD e

/-- The tracked buffer length: `Σ (line.length + 1)` over the buffer. -/
def bufLenOf (bs : List (List Char)) : Nat := (bs.map (fun b => b.length + 1)).sum

/-! ### Segment machine

The segment machine mirrors the chunker loop but records, instead of the
flattened chunk text, the `Seg` decomposition of each chunk: which
consecutive original lines it carries and which of its fence lines are
synthetic.  It follows the description in the specification of the split
points and is related to the chunker by `c2_chunk_segments`. -/

/-- The segment-machine state: emitted segments and the current chunk
under construction (its optional synthetic reopening fence line and its
original lines), plus the fence bookkeeping shared with the chunker. -/
structure SplitStS where
  segs : List Seg
  pref : Option (List Char)
  body : List (List Char)
  inFence : Bool
  fenceLine : List Char

/-- The buffer the chunker would hold in this segment-machine state. -/
def bufS (st : SplitStS) : List (List Char) := st.pref.toList ++ st.body

/-- Close the current chunk as a segment. -/
def pushSeg (closed : Bool) (st : SplitStS) : SplitStS :=
  { st with segs := st.segs ++ [⟨st.pref, st.body, closed⟩],
            pref := none, body := [] }

/-- Fence bookkeeping of the segment machine. -/
def fencePhaseS (line : List Char) (st : SplitStS) : SplitStS :=
  if startsWithCh fenceMarker (trimCh line) then
    if !st.inFence then { st with inFence := true, fenceLine := trimCh line }
    else { st with inFence := false }
  else st

/-- The overflow split of the segment machine: close the current segment,
marking it and reopening when inside a fence. -/
def overflowPhaseS (maxChars : Nat) (line : List Char) (st : SplitStS) : SplitStS :=
  if decide (maxChars < bufLenOf (bufS st) + (line.length + 1)) &&
      !(bufS st).isEmpty then
    if st.inFence then { pushSeg true st with pref := some st.fenceLine }
    else pushSeg false st
  else st

/-- Append the current line to the segment under construction. -/
def appendPhaseS (line : List Char) (st : SplitStS) : SplitStS :=
  { st with body := st.body ++ [line] }

/-- The paragraph-boundary split of the segment machine. -/
def paragraphPhaseS (maxChars : Nat) (next : Option (List Char)) (st : SplitStS) :
    SplitStS :=
  if !st.inFence && decide ((3 * maxChars) / 4 ≤ bufLenOf (bufS st)) &&
      (match next with
       | none => true
       | some n => (trimCh n).isEmpty) then
    pushSeg false st
  else st

/-- One iteration of the segment machine. -/
def splitStepS (maxChars : Nat) (line : List Char) (next : Option (List Char))
    (st : SplitStS) : SplitStS :=
  paragraphPhaseS maxChars next
    (appendPhaseS line (overflowPhaseS maxChars line (fencePhaseS line st)))

/-- The line loop of the segment machine. -/
def splitLoopS (maxChars : Nat) : List (List Char) → SplitStS → SplitStS
  | [], st => st
  | l :: rest, st => splitLoopS maxChars rest (splitStepS maxChars l rest.head? st)

/-- The segment decomposition of the chunker output on the normalized
input lines. -/
def segsOf (text : String) (maxChars : Nat) : List Seg :=
  let src := replaceCRLF text.data
  let lines := splitLinesCh src
  let sts := splitLoopS maxChars lines ⟨[], none, [], false, fenceMarker⟩
  if (bufS sts).isEmpty then sts.segs else (pushSeg false sts).segs

/-- The simulation relation between a chunker state and a segment-machine
state: the chunks are the renderings of the segments (empty renderings
dropped), and buffer and fence bookkeeping coincide. -/
def SplitRel (st : SplitSt) (sts : SplitStS) : Prop :=
  st.chunks = (sts.segs.map renderSeg).filter (fun c => !c.isEmpty) ∧
  st.buf = bufS sts ∧
  st.bufLen = bufLenOf (bufS sts) ∧
  st.inFence = sts.inFence ∧
  st.fenceLine = sts.fenceLine

/-! ## Gateway protocol client

Source: `askClawdbot` (bridge v3.3, lines 1452–1482).  The state of one
invocation consists of the accumulated assistant buffer, the remembered
`runId`, whether the socket was closed, whether the connect/agent requests
were sent, and the promise outcome.  The promise settles at most once:
later `resolve`/`reject` calls are no-ops. -/

/-- The `data` object of an `event/agent` payload: optional string fields
`text`, `delta`, `phase`, `message`. -/
structure AgentData where
  text : Option String := none
  delta : Option String := none
  phase : Option String := none
  message : Option String := none
deriving DecidableEq

/-- The payload of an `event/agent` frame. -/
structure AgentPayload where
  runId : Option String := none
  stream : Option String := none
  data : Option AgentData := none
deriving DecidableEq

/-- A parsed frame delivered to the `ws.on('message')` handler.
`unparsed` stands for a frame whose JSON parse failed (the handler
returns at once). -/
inductive GatewayMsg where
  | connectChallenge
  | resConnect (ok : Bool) (errorMessage : Option String)
  | resAgent (ok : Bool) (errorMessage : Option String) (runId : Option String)
  | eventAgent (payload : Option AgentPayload)
  | unparsed
deriving DecidableEq

instance : DecidableEq (Except String String) := fun a b =>
  match a, b with
  | .ok x, .ok y =>
    if h : x = y then isTrue (by rw [h]) else isFalse (fun hc => by cases hc; exact h rfl)
  | .error x, .error y =>
    if h : x = y then isTrue (by rw [h]) else isFalse (fun hc => by cases hc; exact h rfl)
  | .ok _, .error _ => isFalse (fun hc => by cases hc)
  | .error _, .ok _ => isFalse (fun hc => by cases hc)

/-- The state of one `askClawdbot` invocation. -/
structure AskState where
  runId : Option String := none
  buf : String := ""
  sentConnect : Bool := false
  sentAgent : Bool := false
  closed : Bool := false
  result : Option (Except String String) := none
deriving DecidableEq

/-- `e?.message || fallback`: the JavaScript `||` treats an absent or
empty message as falsy. -/
def orFallback (o : Option String) (fallback : String) : String :=
  match o with
  | some s => if s = "" then fallback else s
  | none => fallback

/-- `resolve(v)` on a promise that settles at most once. -/
def settleOk (st : AskState) (v : String) : AskState :=
  { st with result := match st.result with | none => some (.ok v) | r => r }

/-- `reject(new Error(m))` on a promise that settles at most once. -/
def settleErr (st : AskState) (m : String) : AskState :=
  { st with result := match st.result with | none => some (.error m) | r => r }

/-- The `ws.on('message')` handler of `askClawdbot`, one frame at a time.
The `onDelta` callback is invoked outside this state and exceptions from
it are swallowed, so it does not appear here. -/
def askStep (st : AskState) (msg : GatewayMsg) : AskState :=
  match msg with
  | .unparsed => st
  | .connectChallenge => { st with sentConnect := true }
  | .resConnect ok err =>
    if !ok then settleErr { st with closed := true } (orFallback err "connect failed")
    else { st with sentAgent := true }
  | .resAgent ok err rid =>
    if !ok then settleErr { st with closed := true } (orFallback err "agent error")
    else
      match rid with
      | some r => { st with runId := some r }
      | none => st
  | .eventAgent payload =>
    match payload with
    | none => st
    | some p =>
      if (match st.runId with
          | some r => p.runId != some r
          | none => false) then st
      else if p.stream == some "assistant" then
        let d := p.data.getD {}
        { st with buf :=
            match d.text with
            | some t => t
            | none =>
              match d.delta with
              | some dl => st.buf ++ dl
              | none => st.buf }
      else if p.stream == some "lifecycle" then
        let phase := p.data.bind AgentData.phase
        let st1 :=
          if phase == some "end" then settleOk { st with closed := true } (jsTrimStr st.buf)
          else st
        if phase == some "error" then
          settleErr { st1 with closed := true }
            (orFallback (p.data.bind AgentData.message) "agent error")
        else st1
      else st

/-! ## Measures and example inputs used in the statements -/

/-- The longest element length of a list of lines. -/
def lineLenMax (ls : List (List Char)) : Nat :=
  ls.foldr (fun l acc => max l.length acc) 0

/-- The longest line of the normalized input of the chunker. -/
def maxLineLen (text : String) : Nat :=
  lineLenMax (splitLinesCh (replaceCRLF text.data))

/-- The general chunk-length bound of the chunker: the threshold, or the
fence overhead `fence marker + longest line + 2`, whichever is larger,
plus `3` for the synthetic closing fence. -/
def chunkLenBound (maxChars L : Nat) : Nat := max maxChars (max 3 L + L + 2) + 3

/-- The group-gating example text (today + apostrophe + `s weather?`). -/
def groupGateText : String := "today" ++ String.mk [Char.ofNat 39] ++ "s weather?"

/-- The link-extraction example text. -/
def linkSampleText : String :=
  "see https://a.com/1 and https://a.com/1 again, also https://b.com/x."

/-- A fenced input whose lines all fit in 12 characters. -/
def fenceBoundInput : String := "```python\naaaaaaaa\nbbbbbbbb\n```"

/-- An input with a blank line before a split point and a fenced block
longer than the threshold 8. -/
def fenceRoundTripInput : String := "aaa\n\nbbb\n```\nCCCCCCCCC\n```"

/-- The fenced block inside `fenceRoundTripInput`. -/
def fencedBlockSample : String := "```\nCCCCCCCCC\n```"

/-- One two-column, one-row Markdown table. -/
def oneTableBlock : String := "| H1 | H2 |\n| --- | --- |\n| a | b |"

/-- A sixth table with two data rows, followed by a text line. -/
def sixthTableBlock : String :=
  "| H1 | H2 |\n| --- | --- |\n| a | b |\n| c | d |\nafter"

/-- Six tables: five within the cap and a sixth beyond it. -/
def tableCapInput : String :=
  oneTableBlock ++ "\n\n" ++ oneTableBlock ++ "\n\n" ++ oneTableBlock ++ "\n\n" ++
  oneTableBlock ++ "\n\n" ++ oneTableBlock ++ "\n\n" ++ sixthTableBlock

/-- A reply whose first line is a Markdown list item. -/
def listTitleInput : String := "- item one\n- item two"

/-! # Theorems -/

/-! ## General lemmas about the string helpers -/

theorem joinLinesCh_length (bs : List (List Char)) (h : bs ≠ []) :
    (joinLinesCh bs).length + 1 = bufLenOf bs := by
  induction bs with
  | nil => simp at h
  | cons b t ih =>
    cases t with
    | nil => simp [joinLinesCh, bufLenOf]
    | cons b2 t2 =>
      have ih' := ih (by simp)
      simp only [joinLinesCh, bufLenOf, List.map_cons, List.sum_cons,
        List.length_append, List.length_cons] at ih' ⊢
      omega

theorem trimEndCh_length_le (l : List Char) : (trimEndCh l).length ≤ l.length := by
  calc (trimEndCh l).length = (l.reverse.dropWhile jsWhitespace).length := by
        simp [trimEndCh]
    _ ≤ l.reverse.length := (l.reverse.dropWhile_sublist jsWhitespace).length_le
    _ = l.length := by simp

theorem trimEndCh_eq_nil_all_ws (l : List Char) (h : trimEndCh l = []) :
    ∀ c ∈ l, jsWhitespace c = true := by
  intro c hc
  unfold trimEndCh at h
  have h2 : l.reverse.dropWhile jsWhitespace = [] := by
    have := congrArg List.reverse h
    simpa using this
  have h3 := List.dropWhile_eq_nil_iff.mp h2
  exact h3 c (by simpa using hc)

theorem mem_joinLinesCh {parts : List (List Char)} {x : List Char} {c : Char}
    (hx : x ∈ parts) (hc : c ∈ x) : c ∈ joinLinesCh parts := by
  induction parts with
  | nil => simp at hx
  | cons b t ih =>
    cases t with
    | nil =>
      simp only [List.mem_singleton] at hx
      subst hx
      simpa [joinLinesCh] using hc
    | cons b2 t2 =>
      rcases List.mem_cons.mp hx with rfl | h
      · simp [joinLinesCh, List.mem_append, hc]
      · have := ih h
        simp only [joinLinesCh, List.mem_append, List.mem_cons]
        right; right; exact this

theorem lineLenMax_cons (b : List Char) (t : List (List Char)) :
    lineLenMax (b :: t) = max b.length (lineLenMax t) := rfl

theorem length_le_lineLenMax {ls : List (List Char)} {l : List Char} (h : l ∈ ls) :
    l.length ≤ lineLenMax ls := by
  induction ls with
  | nil => simp at h
  | cons b t ih =>
    rcases List.mem_cons.mp h with rfl | h
    · rw [lineLenMax_cons]; exact le_max_left _ _
    · rw [lineLenMax_cons]; exact (ih h).trans (le_max_right _ _)

/-! ## Dedup ledger: C3, C4, C10 -/

theorem isDuplicate_empty_start (m c : String) (t : Nat) (hm : m ≠ "") :
    isDuplicate t m c emptyDedup =
      (false, ⟨[(m, t)], [(m, t + PROCESSING_TTL_MS)],
        if c ≠ "" then [(String.mk (c.data.take 100), t, m)] else []⟩) := by
  unfold isDuplicate emptyDedup
  simp [hm]

theorem isDuplicate_seen_hit (m c : String) (t t0 : Nat) (st : DedupState)
    (hm : m ≠ "") (hseen : st.seen = [(m, t0)]) (ht : t ≤ t0 + SEEN_TTL_MS) :
    isDuplicate t m c st =
      (true, ⟨[(m, t0)], st.processing,
        st.recent.filter (fun e => !(decide (CONTENT_DEDUP_WINDOW_MS < t - e.2.1)))⟩) := by
  have hkeep : ¬ (SEEN_TTL_MS < t - t0) := by
    unfold SEEN_TTL_MS at *; omega
  unfold isDuplicate
  rw [hseen]
  simp [hm, hkeep]

theorem c3_aux (m : String) (t0 : Nat) (hm : m ≠ "")
    (rest : List (Nat × String)) :
    ∀ (st : DedupState), st.seen = [(m, t0)] →
      (∀ p ∈ rest, p.1 ≤ t0 + SEEN_TTL_MS) →
      (runDedupCalls m rest st).1 = rest.map (fun _ => true) := by
  induction rest with
  | nil => intro st _ _; rfl
  | cons p rest ih =>
    intro st hseen hrest
    obtain ⟨t, c⟩ := p
    have hcall := isDuplicate_seen_hit m c t t0 st hm hseen
      (hrest (t, c) (by simp))
    simp only [runDedupCalls, hcall, List.map_cons]
    congr 1
    exact ih _ rfl (fun q hq => hrest q (by simp [hq]))

/-- C3: starting from the fresh ledger, in any sequence of admission calls
sharing one non-empty `messageId` whose later calls all fall within the
10-minute TTL of the first, only the first call returns `false` (newly
admitted) and every subsequent call returns `true` (duplicate). -/
theorem c3_dedup_idempotence (m : String) (t0 : Nat) (c0 : String)
    (rest : List (Nat × String)) (hm : m ≠ "")
    (hrest : ∀ p ∈ rest, t0 ≤ p.1 ∧ p.1 ≤ t0 + SEEN_TTL_MS) :
    (runDedupCalls m ((t0, c0) :: rest) emptyDedup).1 =
      false :: rest.map (fun _ => true) := by
  have h1 := isDuplicate_empty_start m c0 t0 hm
  simp only [runDedupCalls, h1]
  congr 1
  exact c3_aux m t0 hm rest _ rfl (fun p hp => (hrest p hp).2)

/-- Witness for C3 at a concrete call sequence. -/
theorem c3_dedup_idempotence_witness :
    ("m1" : String) ≠ "" ∧
    ([((1000 : Nat), "hello"), ((600000 : Nat), "x")].all
      (fun p => decide (0 ≤ p.1) && decide (p.1 ≤ 0 + SEEN_TTL_MS))) = true ∧
    (runDedupCalls "m1" [(0, "hello"), (1000, "hello"), (600000, "x")]
      emptyDedup).1 = [false, true, true] := by
  refine ⟨by decide, by decide, ?_⟩
  exact c3_dedup_idempotence "m1" 0 "hello" [(1000, "hello"), (600000, "x")]
    (by decide) (by decide)

/-- C4: two admissions with different non-empty ids but the same non-empty
first-100-character content, within 5 seconds of each other and starting
from the fresh ledger: the first is admitted, the second is suppressed. -/
theorem c4_content_fingerprint (id1 id2 c1 c2 : String) (t1 t2 : Nat)
    (h1 : id1 ≠ "") (h2 : id2 ≠ "") (hne : id1 ≠ id2)
    (hc1 : c1 ≠ "") (hc2 : c2 ≠ "")
    (hpre : c1.data.take 100 = c2.data.take 100)
    (hord : t1 ≤ t2) (hwin : t2 ≤ t1 + CONTENT_DEDUP_WINDOW_MS) :
    (isDuplicate t1 id1 c1 emptyDedup).1 = false ∧
    (isDuplicate t2 id2 c2 (isDuplicate t1 id1 c1 emptyDedup).2).1 = true := by
  have hfirst := isDuplicate_empty_start id1 c1 t1 h1
  have hbeq : (id1 == id2) = false := beq_eq_false_iff_ne.mpr hne
  have hkeepSeen : ¬ (SEEN_TTL_MS < t2 - t1) := by
    unfold SEEN_TTL_MS CONTENT_DEDUP_WINDOW_MS at *; omega
  have hkeepRecent : ¬ (CONTENT_DEDUP_WINDOW_MS < t2 - t1) := by
    unfold CONTENT_DEDUP_WINDOW_MS at *; omega
  refine ⟨by rw [hfirst], ?_⟩
  rw [hfirst]
  unfold isDuplicate
  simp [h2, hc1, hc2, hbeq, hkeepSeen, hkeepRecent, hpre]

/-- Witness for C4 at concrete inputs. -/
theorem c4_content_fingerprint_witness :
    (isDuplicate 0 "a" "hello" emptyDedup).1 = false ∧
    (isDuplicate 3000 "b" "hello" (isDuplicate 0 "a" "hello" emptyDedup).2).1 = true :=
  c4_content_fingerprint "a" "b" "hello" "hello" 0 3000 (by decide) (by decide)
    (by decide) (by decide) (by decide) rfl (by decide) (by decide)

/-- C10: a call with an empty (absent) `messageId` always returns `false`,
records nothing, and only lazily purges expired `seen` and fingerprint
entries, leaving the in-flight set untouched. -/
theorem c10_empty_id_admitted (now : Nat) (content : String) (st : DedupState) :
    (isDuplicate now "" content st).1 = false ∧
    List.Sublist (isDuplicate now "" content st).2.seen st.seen ∧
    (isDuplicate now "" content st).2.processing = st.processing ∧
    List.Sublist (isDuplicate now "" content st).2.recent st.recent := by
  unfold isDuplicate
  simp

/-! ## Route classifier: C5 -/

/-- C5: in a group chat, the text `groupGateText` with no mentions is
refused by the gate (the orchestrator then ignores the message): a
question mark alone does not admit a group message without an explicit
mention, configured prefix, or wake-word. -/
theorem c5_group_gating : shouldRespondInGroup groupGateText [] = false := by
  decide

/-! ## URL extraction: C6 -/

/-- C6: URL extraction strips trailing sentence punctuation, removes
duplicates and keeps first-seen order on the specified example. -/
theorem c6_link_extraction :
    extractUrls linkSampleText = ["https://a.com/1", "https://b.com/x"] := by
  decide

/-! ## Gateway protocol client: C7 -/

/-- C7: on a lifecycle event whose phase is `end`, a pending invocation
resolves with the accumulated assistant buffer trimmed of surrounding
whitespace and the socket is closed; on phase `error` with a provided
message, it rejects with that message and the socket is closed. -/
theorem c7_lifecycle_end_error (st : AskState) (rid : Option String)
    (msg : String)
    (hpending : st.result = none)
    (hguard : st.runId = none ∨ rid = st.runId)
    (hmsg : msg ≠ "") :
    (askStep st (.eventAgent (some ⟨rid, some "lifecycle", some ⟨none, none, some "end", none⟩⟩))).result
        = some (.ok (jsTrimStr st.buf)) ∧
    (askStep st (.eventAgent (some ⟨rid, some "lifecycle", some ⟨none, none, some "end", none⟩⟩))).closed = true ∧
    (askStep st (.eventAgent (some ⟨rid, some "lifecycle", some ⟨none, none, some "error", some msg⟩⟩))).result
        = some (.error msg) ∧
    (askStep st (.eventAgent (some ⟨rid, some "lifecycle", some ⟨none, none, some "error", some msg⟩⟩))).closed
        = true := by
  have hblock : (match st.runId with
      | some r => rid != some r
      | none => false) = false := by
    rcases hguard with h | h
    · rw [h]
    · rcases hr : st.runId with _ | r
      · rfl
      · rw [h, hr]; simp
  refine ⟨?_, ?_, ?_, ?_⟩ <;>
    simp [askStep, hblock, settleOk, settleErr, orFallback, hpending, hmsg]

/-- Witness for C7 at a concrete pending invocation state. -/
theorem c7_lifecycle_end_error_witness :
    (askStep ⟨some "r1", "  hi  ", true, true, false, none⟩
      (.eventAgent (some ⟨some "r1", some "lifecycle", some ⟨none, none, some "end", none⟩⟩))).result
        = some (.ok (jsTrimStr "  hi  ")) ∧
    (askStep ⟨some "r1", "  hi  ", true, true, false, none⟩
      (.eventAgent (some ⟨some "r1", some "lifecycle", some ⟨none, none, some "end", none⟩⟩))).closed = true ∧
    (askStep ⟨some "r1", "  hi  ", true, true, false, none⟩
      (.eventAgent (some ⟨some "r1", some "lifecycle", some ⟨none, none, some "error", some "boom"⟩⟩))).result
        = some (.error "boom") ∧
    (askStep ⟨some "r1", "  hi  ", true, true, false, none⟩
      (.eventAgent (some ⟨some "r1", some "lifecycle", some ⟨none, none, some "error", some "boom"⟩⟩))).closed
        = true :=
  c7_lifecycle_end_error ⟨some "r1", "  hi  ", true, true, false, none⟩
    (some "r1") "boom" rfl (Or.inr rfl) (by decide)

/-! ## Card title extraction: C8 -/

/-- C8: the doubled backslashes of the title regexps make the bold
pattern match every non-empty line, so a leading Markdown list item is
taken as the card title, contradicting both the specification and the
evident intent of the guards; on `"- item one\n- item two"` the code
returns the list item as title and strips it from the body. -/
theorem c8_title_bug_eval :
    extractHeaderAndBody listTitleInput = ("- item one", "- item two") ∧
    (buildMarkdownCard listTitleInput).title = some "- item one" := by
  decide

/-! ## Table cap flattening: C9 -/

/-- C9: with the per-message table cap (5) exhausted, the sixth table is
flattened through a block that reads `lines[i+1]` after `i` was
reassigned: the separator row is replaced by the line following the table
(which is also processed again afterwards), so the first data row is
consumed as headers and the only bullet produced is `• a: c | b: d`
instead of the specified `• H1: a | H2: b` and `• H1: c | H2: d` (the
latter being exactly what `convertTablesToList` yields on the intact
block). -/
theorem c9_table_cap_bug_eval :
    buildCardElements tableCapInput =
      [.table [("h1", "H1"), ("h2", "H2")] [[("h1", "a"), ("h2", "b")]] 1,
       .table [("h1", "H1"), ("h2", "H2")] [[("h1", "a"), ("h2", "b")]] 1,
       .table [("h1", "H1"), ("h2", "H2")] [[("h1", "a"), ("h2", "b")]] 1,
       .table [("h1", "H1"), ("h2", "H2")] [[("h1", "a"), ("h2", "b")]] 1,
       .table [("h1", "H1"), ("h2", "H2")] [[("h1", "a"), ("h2", "b")]] 1,
       .markdown "after\n• a: c | b: d\nafter"] ∧
    convertTablesToList "| H1 | H2 |\n| --- | --- |\n| a | b |\n| c | d |" =
      "• H1: a | H2: b\n• H1: c | H2: d" := by
  decide

/-! ## Chunking: C1 and C2 counterexamples -/

/-- C1 counterexample: with `maxChars = 12`, an input whose lines all have
at most 12 characters still produces a chunk longer than 12 characters
(the synthetic closing fence and the reopened fence marker line exceed
the threshold at a split inside the fence). -/
theorem c1_counterexample :
    ((splitMarkdownIntoChunks fenceBoundInput 12).any
      (fun c => decide (12 < c.length))) = true ∧
    ((splitLinesCh (replaceCRLF fenceBoundInput.data)).all
      (fun l => decide (l.length ≤ 12))) = true := by
  decide

/-- C2 counterexample: for an input containing a fenced block longer than
the threshold 8, removing the synthetic closing/reopening fence lines
inserted at the in-fence split points and concatenating the chunks does
not reproduce the input: the blank line dropped by `trimEnd()` at an
out-of-fence split point is lost.  The first conjunct ties the
instrumented splitter to `splitMarkdownIntoChunks`. -/
theorem c2_counterexample :
    ((splitMarkdownIntoChunksMarked fenceRoundTripInput 8).map Prod.fst
      = (splitMarkdownIntoChunks fenceRoundTripInput 8).map String.data) ∧
    (containsSub fencedBlockSample.data fenceRoundTripInput.data = true) ∧
    (8 < fencedBlockSample.length) ∧
    (removeSyntheticMarkers (splitMarkdownIntoChunksMarked fenceRoundTripInput 8)
      ≠ fenceRoundTripInput.data) := by
  decide

/-! ## Chunking: the C1 length bound -/

theorem bufLenOf_nil : bufLenOf [] = 0 := rfl

theorem bufLenOf_append (a b : List (List Char)) :
    bufLenOf (a ++ b) = bufLenOf a + bufLenOf b := by
  simp [bufLenOf]

theorem bufLenOf_singleton (l : List Char) : bufLenOf [l] = l.length + 1 := by
  simp [bufLenOf]

theorem trimCh_length_le (l : List Char) : (trimCh l).length ≤ l.length := by
  refine le_trans (trimEndCh_length_le _) ?_
  simpa [trimStartCh] using (l.dropWhile_sublist jsWhitespace).length_le

theorem pushChunk_chunks (st : SplitSt) :
    (pushChunk st).chunks = st.chunks ++
      (if (trimEndCh (joinLinesCh st.buf)).isEmpty then []
       else [trimEndCh (joinLinesCh st.buf)]) := rfl

theorem pushChunk_buf (st : SplitSt) : (pushChunk st).buf = [] := rfl

theorem pushChunk_bufLen (st : SplitSt) : (pushChunk st).bufLen = 0 := rfl

theorem pushChunk_inFence (st : SplitSt) : (pushChunk st).inFence = st.inFence := rfl

theorem pushChunk_fenceLine (st : SplitSt) :
    (pushChunk st).fenceLine = st.fenceLine := rfl

theorem pushChunk_chunks_bound (st : SplitSt) (B : Nat)
    (hchunks : ∀ c ∈ st.chunks, c.length ≤ B)
    (hbuf : bufLenOf st.buf ≤ B + 1) :
    ∀ c ∈ (pushChunk st).chunks, c.length ≤ B := by
  intro c hc
  rw [pushChunk_chunks] at hc
  rcases List.mem_append.mp hc with h | h
  · exact hchunks c h
  · by_cases hout : (trimEndCh (joinLinesCh st.buf)).isEmpty
    · simp [hout] at h
    · simp only [hout, if_neg, Bool.false_eq_true, not_false_eq_true,
        List.mem_singleton] at h
      subst h
      rcases hb : st.buf with _ | ⟨x, xs⟩
      · rw [hb] at hout
        simp [joinLinesCh, trimEndCh] at hout
      · have hj := joinLinesCh_length st.buf (by rw [hb]; simp)
        have ht := trimEndCh_length_le (joinLinesCh st.buf)
        rw [← hb]
        omega

theorem fencePhase_chunks (line : List Char) (st : SplitSt) :
    (fencePhase line st).chunks = st.chunks := by
  unfold fencePhase; split_ifs <;> rfl

theorem fencePhase_buf (line : List Char) (st : SplitSt) :
    (fencePhase line st).buf = st.buf := by
  unfold fencePhase; split_ifs <;> rfl

theorem fencePhase_bufLen (line : List Char) (st : SplitSt) :
    (fencePhase line st).bufLen = st.bufLen := by
  unfold fencePhase; split_ifs <;> rfl

theorem fencePhase_fenceLine_le {L : Nat} (line : List Char) (st : SplitSt)
    (hline : line.length ≤ L) (hfence : st.fenceLine.length ≤ max 3 L) :
    (fencePhase line st).fenceLine.length ≤ max 3 L := by
  unfold fencePhase
  split_ifs with h1 h2
  · show (trimCh line).length ≤ max 3 L
    have := trimCh_length_le line
    omega
  · exact hfence
  · exact hfence

theorem appendPhase_fields (line : List Char) (st : SplitSt) :
    (appendPhase line st).chunks = st.chunks ∧
    (appendPhase line st).buf = st.buf ++ [line] ∧
    (appendPhase line st).bufLen = st.bufLen + (line.length + 1) ∧
    (appendPhase line st).inFence = st.inFence ∧
    (appendPhase line st).fenceLine = st.fenceLine :=
  ⟨rfl, rfl, rfl, rfl, rfl⟩

theorem overflowAppend_len_inv (mc L : Nat) (line : List Char) (st : SplitSt)
    (hline : line.length ≤ L)
    (hchunks : ∀ c ∈ st.chunks, c.length ≤ chunkLenBound mc L)
    (hlen : st.bufLen = bufLenOf st.buf)
    (hbound : st.bufLen ≤ max mc (max 3 L + L + 2))
    (hfence : st.fenceLine.length ≤ max 3 L) :
    (∀ c ∈ (appendPhase line (overflowPhase mc line st)).chunks,
        c.length ≤ chunkLenBound mc L) ∧
    (appendPhase line (overflowPhase mc line st)).bufLen =
      bufLenOf (appendPhase line (overflowPhase mc line st)).buf ∧
    (appendPhase line (overflowPhase mc line st)).bufLen ≤
      max mc (max 3 L + L + 2) ∧
    (appendPhase line (overflowPhase mc line st)).fenceLine = st.fenceLine ∧
    (appendPhase line (overflowPhase mc line st)).inFence = st.inFence := by
  by_cases hw : mc < st.bufLen + (line.length + 1)
  · by_cases he : st.buf.isEmpty
    · have hstep : overflowPhase mc line st = st := by
        unfold overflowPhase; simp [he]
      rw [hstep]
      have hbe : bufLenOf st.buf = 0 := by
        rw [List.isEmpty_iff.mp he]; rfl
      refine ⟨?_, ?_, ?_, rfl, rfl⟩
      · simpa [appendPhase] using hchunks
      · simp [appendPhase, bufLenOf_append, bufLenOf_singleton, hlen]
      · simp only [appendPhase]
        omega
    · by_cases hf : st.inFence
      · have hstep : overflowPhase mc line st =
            { pushChunk { st with buf := st.buf ++ [fenceMarker] } with
              buf := [st.fenceLine], bufLen := st.fenceLine.length + 1 } := by
          unfold overflowPhase; simp [hw, he, hf]
        rw [hstep]
        have hb4 : bufLenOf (st.buf ++ [fenceMarker]) = bufLenOf st.buf + 4 := by
          rw [bufLenOf_append, bufLenOf_singleton]; rfl
        refine ⟨?_, ?_, ?_, rfl, ?_⟩
        · intro c hc
          simp only [appendPhase] at hc
          refine pushChunk_chunks_bound { st with buf := st.buf ++ [fenceMarker] }
            (chunkLenBound mc L) (by simpa using hchunks) ?_ c hc
          show bufLenOf (st.buf ++ [fenceMarker]) ≤ chunkLenBound mc L + 1
          unfold chunkLenBound
          omega
        · simp [appendPhase, bufLenOf]
        · simp only [appendPhase]
          omega
        · show st.inFence = st.inFence
          rfl
      · have hstep : overflowPhase mc line st = pushChunk st := by
          unfold overflowPhase; simp [hw, he, hf]
        rw [hstep]
        refine ⟨?_, ?_, ?_, rfl, ?_⟩
        · intro c hc
          simp only [appendPhase] at hc
          refine pushChunk_chunks_bound st (chunkLenBound mc L) hchunks ?_ c hc
          unfold chunkLenBound
          omega
        · simp [appendPhase, pushChunk_buf, pushChunk_bufLen, bufLenOf_singleton]
        · simp only [appendPhase, pushChunk_bufLen]
          omega
        · show st.inFence = st.inFence
          rfl
  · have hstep : overflowPhase mc line st = st := by
      unfold overflowPhase; simp [hw]
    rw [hstep]
    refine ⟨?_, ?_, ?_, rfl, rfl⟩
    · simpa [appendPhase] using hchunks
    · simp [appendPhase, bufLenOf_append, bufLenOf_singleton, hlen]
    · simp only [appendPhase]
      omega

theorem paragraphPhase_len_inv (mc L : Nat) (next : Option (List Char))
    (st : SplitSt)
    (hchunks : ∀ c ∈ st.chunks, c.length ≤ chunkLenBound mc L)
    (hlen : st.bufLen = bufLenOf st.buf)
    (hbound : st.bufLen ≤ max mc (max 3 L + L + 2)) :
    (∀ c ∈ (paragraphPhase mc next st).chunks, c.length ≤ chunkLenBound mc L) ∧
    (paragraphPhase mc next st).bufLen =
      bufLenOf (paragraphPhase mc next st).buf ∧
    (paragraphPhase mc next st).bufLen ≤ max mc (max 3 L + L + 2) ∧
    (paragraphPhase mc next st).fenceLine = st.fenceLine := by
  unfold paragraphPhase
  split_ifs with h
  · refine ⟨?_, by simp [pushChunk_buf, pushChunk_bufLen, bufLenOf], by simp [pushChunk_bufLen], rfl⟩
    refine pushChunk_chunks_bound st (chunkLenBound mc L) hchunks ?_
    unfold chunkLenBound
    omega
  · exact ⟨hchunks, hlen, hbound, rfl⟩

theorem splitStep_len_inv (mc L : Nat) (line : List Char)
    (next : Option (List Char)) (st : SplitSt) (hline : line.length ≤ L)
    (hchunks : ∀ c ∈ st.chunks, c.length ≤ chunkLenBound mc L)
    (hlen : st.bufLen = bufLenOf st.buf)
    (hbound : st.bufLen ≤ max mc (max 3 L + L + 2))
    (hfence : st.fenceLine.length ≤ max 3 L) :
    (∀ c ∈ (splitStep mc line next st).chunks, c.length ≤ chunkLenBound mc L) ∧
    (splitStep mc line next st).bufLen =
      bufLenOf (splitStep mc line next st).buf ∧
    (splitStep mc line next st).bufLen ≤ max mc (max 3 L + L + 2) ∧
    (splitStep mc line next st).fenceLine.length ≤ max 3 L := by
  have h1c := fencePhase_chunks line st
  have h1b := fencePhase_buf line st
  have h1l := fencePhase_bufLen line st
  have h1f := fencePhase_fenceLine_le line st hline hfence
  have h2 := overflowAppend_len_inv mc L line (fencePhase line st) hline
    (by rw [h1c]; exact hchunks) (by rw [h1l, h1b]; exact hlen)
    (by rw [h1l]; exact hbound) h1f
  have h3 := paragraphPhase_len_inv mc L next
    (appendPhase line (overflowPhase mc line (fencePhase line st)))
    h2.1 h2.2.1 h2.2.2.1
  unfold splitStep
  refine ⟨h3.1, h3.2.1, h3.2.2.1, ?_⟩
  rw [h3.2.2.2, h2.2.2.2.1]
  exact h1f

theorem splitLoop_len_inv (mc L : Nat) (lines : List (List Char)) :
    ∀ (st : SplitSt),
      (∀ l ∈ lines, l.length ≤ L) →
      (∀ c ∈ st.chunks, c.length ≤ chunkLenBound mc L) →
      st.bufLen = bufLenOf st.buf →
      st.bufLen ≤ max mc (max 3 L + L + 2) →
      st.fenceLine.length ≤ max 3 L →
      (∀ c ∈ (splitLoop mc lines st).chunks, c.length ≤ chunkLenBound mc L) ∧
      (splitLoop mc lines st).bufLen =
        bufLenOf (splitLoop mc lines st).buf ∧
      (splitLoop mc lines st).bufLen ≤ max mc (max 3 L + L + 2) := by
  induction lines with
  | nil =>
    intro st _ hchunks hlen hbound _
    exact ⟨hchunks, hlen, hbound⟩
  | cons l rest ih =>
    intro st hlines hchunks hlen hbound hfence
    have hstep := splitStep_len_inv mc L l rest.head? st
      (hlines l (by simp)) hchunks hlen hbound hfence
    exact ih _ (fun x hx => hlines x (by simp [hx]))
      hstep.1 hstep.2.1 hstep.2.2.1 hstep.2.2.2

theorem fencePhase_id_of_nofence (line : List Char) (st : SplitSt)
    (h : startsWithCh fenceMarker (trimCh line) = false) :
    fencePhase line st = st := by
  unfold fencePhase; simp [h]

theorem overflowAppend_nofence_inv (mc L : Nat) (line : List Char) (st : SplitSt)
    (hline : line.length ≤ L)
    (hchunks : ∀ c ∈ st.chunks, c.length ≤ max mc L)
    (hlen : st.bufLen = bufLenOf st.buf)
    (hbound : st.bufLen ≤ max mc (L + 1))
    (hinf : st.inFence = false) :
    (∀ c ∈ (appendPhase line (overflowPhase mc line st)).chunks,
        c.length ≤ max mc L) ∧
    (appendPhase line (overflowPhase mc line st)).bufLen =
      bufLenOf (appendPhase line (overflowPhase mc line st)).buf ∧
    (appendPhase line (overflowPhase mc line st)).bufLen ≤ max mc (L + 1) ∧
    (appendPhase line (overflowPhase mc line st)).inFence = false := by
  by_cases hw : mc < st.bufLen + (line.length + 1)
  · by_cases he : st.buf.isEmpty
    · have hstep : overflowPhase mc line st = st := by
        unfold overflowPhase; simp [he]
      rw [hstep]
      have hbe : bufLenOf st.buf = 0 := by
        rw [List.isEmpty_iff.mp he]; rfl
      refine ⟨by simpa [appendPhase] using hchunks, ?_, ?_, by simp [appendPhase, hinf]⟩
      · simp [appendPhase, bufLenOf_append, bufLenOf_singleton, hlen]
      · simp only [appendPhase]
        omega
    · have hstep : overflowPhase mc line st = pushChunk st := by
        unfold overflowPhase; simp [hw, he, hinf]
      rw [hstep]
      refine ⟨?_, ?_, ?_, by simp [appendPhase, pushChunk_inFence, hinf]⟩
      · intro c hc
        simp only [appendPhase] at hc
        refine pushChunk_chunks_bound st (max mc L) hchunks ?_ c hc
        omega
      · simp [appendPhase, pushChunk_buf, pushChunk_bufLen, bufLenOf_singleton]
      · simp only [appendPhase, pushChunk_bufLen]
        omega
  · have hstep : overflowPhase mc line st = st := by
      unfold overflowPhase; simp [hw]
    rw [hstep]
    refine ⟨by simpa [appendPhase] using hchunks, ?_, ?_, by simp [appendPhase, hinf]⟩
    · simp [appendPhase, bufLenOf_append, bufLenOf_singleton, hlen]
    · simp only [appendPhase]
      omega

theorem paragraphPhase_nofence_inv (mc L : Nat) (next : Option (List Char))
    (st : SplitSt)
    (hchunks : ∀ c ∈ st.chunks, c.length ≤ max mc L)
    (hlen : st.bufLen = bufLenOf st.buf)
    (hbound : st.bufLen ≤ max mc (L + 1)) :
    (∀ c ∈ (paragraphPhase mc next st).chunks, c.length ≤ max mc L) ∧
    (paragraphPhase mc next st).bufLen =
      bufLenOf (paragraphPhase mc next st).buf ∧
    (paragraphPhase mc next st).bufLen ≤ max mc (L + 1) ∧
    (paragraphPhase mc next st).inFence = st.inFence := by
  unfold paragraphPhase
  split_ifs with h
  · refine ⟨?_, by simp [pushChunk_buf, pushChunk_bufLen, bufLenOf],
      by simp [pushChunk_bufLen], by simp [pushChunk_inFence]⟩
    refine pushChunk_chunks_bound st (max mc L) hchunks ?_
    omega
  · exact ⟨hchunks, hlen, hbound, rfl⟩

theorem splitLoop_nofence_inv (mc L : Nat) (lines : List (List Char)) :
    ∀ (st : SplitSt),
      (∀ l ∈ lines, l.length ≤ L) →
      (∀ l ∈ lines, startsWithCh fenceMarker (trimCh l) = false) →
      (∀ c ∈ st.chunks, c.length ≤ max mc L) →
      st.bufLen = bufLenOf st.buf →
      st.bufLen ≤ max mc (L + 1) →
      st.inFence = false →
      (∀ c ∈ (splitLoop mc lines st).chunks, c.length ≤ max mc L) ∧
      (splitLoop mc lines st).bufLen =
        bufLenOf (splitLoop mc lines st).buf ∧
      (splitLoop mc lines st).bufLen ≤ max mc (L + 1) := by
  induction lines with
  | nil =>
    intro st _ _ hchunks hlen hbound _
    exact ⟨hchunks, hlen, hbound⟩
  | cons l rest ih =>
    intro st hlines hnof hchunks hlen hbound hinf
    have h1 := fencePhase_id_of_nofence l st (hnof l (by simp))
    have h2 := overflowAppend_nofence_inv mc L l st (hlines l (by simp))
      hchunks hlen hbound hinf
    have h3 := paragraphPhase_nofence_inv mc L rest.head?
      (appendPhase l (overflowPhase mc l st)) h2.1 h2.2.1 h2.2.2.1
    have hstepEq : splitStep mc l rest.head? st =
        paragraphPhase mc rest.head? (appendPhase l (overflowPhase mc l st)) := by
      unfold splitStep; rw [h1]
    have hloop : splitLoop mc (l :: rest) st =
        splitLoop mc rest (splitStep mc l rest.head? st) := rfl
    rw [hloop, hstepEq]
    exact ih _ (fun x hx => hlines x (by simp [hx]))
      (fun x hx => hnof x (by simp [hx]))
      h3.1 h3.2.1 h3.2.2.1 (by rw [h3.2.2.2, h2.2.2.2])

/-- C1 (amended): every chunk produced by `splitMarkdownIntoChunks` has
length at most `chunkLenBound maxChars L` where `L` is the longest line of
the input, the excess over `maxChars` coming only from the synthetic
closing fence and the reopened fence marker line at in-fence split points
and from oversized atomic lines; and when no line of the input opens a
fence, every chunk has length at most `max maxChars L` — i.e. at most
`maxChars` unless a single atomic line itself exceeds `maxChars`. -/
theorem c1_chunk_length_bound (text : String) (maxChars : Nat) :
    (∀ c ∈ splitMarkdownIntoChunks text maxChars,
        c.length ≤ chunkLenBound maxChars (maxLineLen text)) ∧
    ((∀ l ∈ splitLinesCh (replaceCRLF text.data),
        startsWithCh fenceMarker (trimCh l) = false) →
      ∀ c ∈ splitMarkdownIntoChunks text maxChars,
        c.length ≤ max maxChars (maxLineLen text)) := by
  constructor
  · intro c hc
    unfold splitMarkdownIntoChunks at hc
    by_cases h0 : (replaceCRLF text.data).isEmpty
    · simp [h0] at hc
    · by_cases h1 : (replaceCRLF text.data).length ≤ maxChars
      · simp only [h0, Bool.false_eq_true, if_false, h1, decide_True,
          decide_eq_true_eq, if_pos, List.mem_singleton] at hc
        have : c.length = (replaceCRLF text.data).length := by
          rw [hc]; rfl
        unfold chunkLenBound
        omega
      · have hloop := splitLoop_len_inv maxChars (maxLineLen text)
          (splitLinesCh (replaceCRLF text.data)) splitInit
          (fun l hl => length_le_lineLenMax hl)
          (by intro x hx; simp [splitInit] at hx)
          (by rfl) (by simp [splitInit]) (by simp [splitInit, fenceMarker])
        simp only [h0, Bool.false_eq_true, if_false, h1, if_neg,
          decide_eq_true_eq] at hc
        set stL := splitLoop maxChars (splitLinesCh (replaceCRLF text.data))
          splitInit with hstL
        have hflush : ∀ c ∈ (if stL.buf.isEmpty then stL else pushChunk stL).chunks,
            c.length ≤ chunkLenBound maxChars (maxLineLen text) := by
          split_ifs
          · exact hloop.1
          · refine pushChunk_chunks_bound stL _ hloop.1 ?_
            unfold chunkLenBound
            have := hloop.2.1
            have := hloop.2.2
            omega
        set stF := if stL.buf.isEmpty then stL else pushChunk stL with hstF
        by_cases h2 : stF.chunks.isEmpty
        · simp only [h2, if_pos, List.mem_singleton] at hc
          have : c.length = ((replaceCRLF text.data).take maxChars).length := by
            rw [hc]; rfl
          have ht : ((replaceCRLF text.data).take maxChars).length ≤ maxChars := by
            simp [List.length_take]
          unfold chunkLenBound
          omega
        · simp only [h2, Bool.false_eq_true, if_false, List.mem_map] at hc
          obtain ⟨c0, hc0, hceq⟩ := hc
          have : c.length = c0.length := by rw [← hceq]; rfl
          have := hflush c0 hc0
          omega
  · intro hnf c hc
    unfold splitMarkdownIntoChunks at hc
    by_cases h0 : (replaceCRLF text.data).isEmpty
    · simp [h0] at hc
    · by_cases h1 : (replaceCRLF text.data).length ≤ maxChars
      · simp only [h0, Bool.false_eq_true, if_false, h1, decide_True,
          decide_eq_true_eq, if_pos, List.mem_singleton] at hc
        have : c.length = (replaceCRLF text.data).length := by
          rw [hc]; rfl
        omega
      · have hloop := splitLoop_nofence_inv maxChars (maxLineLen text)
          (splitLinesCh (replaceCRLF text.data)) splitInit
          (fun l hl => length_le_lineLenMax hl) hnf
          (by intro x hx; simp [splitInit] at hx)
          (by rfl) (by simp [splitInit]) (by rfl)
        simp only [h0, Bool.false_eq_true, if_false, h1, if_neg,
          decide_eq_true_eq] at hc
        set stL := splitLoop maxChars (splitLinesCh (replaceCRLF text.data))
          splitInit with hstL
        have hflush : ∀ c ∈ (if stL.buf.isEmpty then stL else pushChunk stL).chunks,
            c.length ≤ max maxChars (maxLineLen text) := by
          split_ifs
          · exact hloop.1
          · refine pushChunk_chunks_bound stL _ hloop.1 ?_
            have := hloop.2.1
            have := hloop.2.2
            omega
        set stF := if stL.buf.isEmpty then stL else pushChunk stL with hstF
        by_cases h2 : stF.chunks.isEmpty
        · simp only [h2, if_pos, List.mem_singleton] at hc
          have : c.length = ((replaceCRLF text.data).take maxChars).length := by
            rw [hc]; rfl
          have ht : ((replaceCRLF text.data).take maxChars).length ≤ maxChars := by
            simp [List.length_take]
          omega
        · simp only [h2, Bool.false_eq_true, if_false, List.mem_map] at hc
          obtain ⟨c0, hc0, hceq⟩ := hc
          have : c.length = c0.length := by rw [← hceq]; rfl
          have := hflush c0 hc0
          omega

/-- Witness for C1 at a fence-free concrete input, discharging the
no-fence hypothesis of the second conjunct. -/
theorem c1_chunk_length_bound_witness :
    ((splitMarkdownIntoChunks "aaa\nbbb" 4).all
      (fun c => decide (c.length ≤ chunkLenBound 4 (maxLineLen "aaa\nbbb")))) = true ∧
    ((splitMarkdownIntoChunks "aaa\nbbb" 4).all
      (fun c => decide (c.length ≤ max 4 (maxLineLen "aaa\nbbb")))) = true := by
  constructor
  · exact List.all_eq_true.mpr
      (fun c hc => decide_eq_true ((c1_chunk_length_bound "aaa\nbbb" 4).1 c hc))
  · exact List.all_eq_true.mpr
      (fun c hc => decide_eq_true
        ((c1_chunk_length_bound "aaa\nbbb" 4).2 (by decide) c hc))

/-! ## Chunking: the C2 segment decomposition -/

theorem lastClosed_cons (e : Bool) (a : Seg) (t : List Seg) :
    lastClosed e (a :: t) = lastClosed a.closed t := by
  cases t with
  | nil => rfl
  | cons b t2 =>
    unfold lastClosed
    rw [List.getLast?_cons_cons]
    rcases hx : (b :: t2).getLast? with _ | x
    · have hs : (b :: t2).getLast?.isSome := List.getLast?_isSome.mpr (by simp)
      rw [hx] at hs
      simp at hs
    · simp

theorem chainFrom_snoc (e : Bool) (segs : List Seg) (sg : Seg)
    (hchain : chainFrom e segs) (hpref : prefOk (lastClosed e segs) sg.reopen) :
    chainFrom e (segs ++ [sg]) := by
  induction segs generalizing e with
  | nil => exact ⟨hpref, trivial⟩
  | cons a t ih =>
    obtain ⟨h1, h2⟩ := hchain
    rw [lastClosed_cons] at hpref
    exact ⟨h1, ih a.closed h2 hpref⟩

theorem lastClosed_snoc (e : Bool) (segs : List Seg) (sg : Seg) :
    lastClosed e (segs ++ [sg]) = sg.closed := by
  simp [lastClosed]

theorem pushSeg_render (b : Bool) (sts : SplitStS) :
    renderSeg ⟨sts.pref, sts.body, b⟩ =
      trimEndCh (joinLinesCh (bufS sts ++ (if b then [fenceMarker] else []))) := by
  unfold renderSeg bufS
  cases b <;> simp [List.append_assoc]

theorem filter_render_snoc (segs : List Seg) (sg : Seg) :
    ((segs ++ [sg]).map renderSeg).filter (fun c => !c.isEmpty) =
      (segs.map renderSeg).filter (fun c => !c.isEmpty) ++
      (if (renderSeg sg).isEmpty then [] else [renderSeg sg]) := by
  rw [List.map_append, List.filter_append]
  by_cases h : (renderSeg sg).isEmpty <;> simp [List.filter, h]

theorem fencePhase_sim (line : List Char) {st : SplitSt} {sts : SplitStS}
    (h : SplitRel st sts) :
    SplitRel (fencePhase line st) (fencePhaseS line sts) := by
  obtain ⟨h1, h2, h3, h4, h5⟩ := h
  unfold fencePhase fencePhaseS
  by_cases hA : startsWithCh fenceMarker (trimCh line) = true
  · rw [if_pos hA, if_pos hA]
    by_cases hB : sts.inFence = true
    · rw [h4, hB]
      exact ⟨h1, h2, h3, rfl, h5⟩
    · have hB' : sts.inFence = false := by simpa using hB
      rw [h4, hB']
      exact ⟨h1, h2, h3, rfl, rfl⟩
  · rw [if_neg hA, if_neg hA]
    exact ⟨h1, h2, h3, h4, h5⟩

theorem overflowPhase_sim (mc : Nat) (line : List Char) {st : SplitSt}
    {sts : SplitStS} (h : SplitRel st sts) :
    SplitRel (overflowPhase mc line st) (overflowPhaseS mc line sts) := by
  obtain ⟨h1, h2, h3, h4, h5⟩ := h
  unfold overflowPhase overflowPhaseS
  by_cases hcond : (decide (mc < bufLenOf (bufS sts) + (line.length + 1)) &&
      !(bufS sts).isEmpty) = true
  · rw [if_pos (by rw [h3, h2]; exact hcond), if_pos hcond]
    by_cases hf : sts.inFence = true
    · rw [h4, hf, if_pos rfl, if_pos rfl]
      refine ⟨?_, ?_, ?_, ?_, ?_⟩
      · show (pushChunk { st with buf := st.buf ++ [fenceMarker] }).chunks = _
        rw [pushChunk_chunks]
        show st.chunks ++ _ =
          (((pushSeg true sts).segs).map renderSeg).filter (fun c => !c.isEmpty)
        simp only [pushSeg]
        rw [filter_render_snoc, ← h1, pushSeg_render, h2]
        simp
      · show [st.fenceLine] = bufS _
        simp [bufS, pushSeg, h5]
      · show st.fenceLine.length + 1 = bufLenOf (bufS _)
        simp [bufS, pushSeg, bufLenOf, h5]
      · show (true : Bool) = sts.inFence
        exact hf.symm
      · show st.fenceLine = sts.fenceLine
        exact h5
    · have hf' : sts.inFence = false := by simpa using hf
      rw [h4, hf']
      simp only [Bool.false_eq_true, if_false]
      refine ⟨?_, ?_, ?_, ?_, ?_⟩
      · rw [pushChunk_chunks]
        simp only [pushSeg]
        rw [filter_render_snoc, ← h1, pushSeg_render, h2]
        simp
      · show ([] : List (List Char)) = bufS _
        simp [bufS, pushSeg]
      · show 0 = bufLenOf (bufS _)
        simp [bufS, pushSeg, bufLenOf]
      · show st.inFence = sts.inFence
        exact h4
      · show st.fenceLine = sts.fenceLine
        exact h5
  · rw [if_neg (by rw [h3, h2]; exact hcond), if_neg hcond]
    exact ⟨h1, h2, h3, h4, h5⟩

theorem appendPhase_sim (line : List Char) {st : SplitSt} {sts : SplitStS}
    (h : SplitRel st sts) :
    SplitRel (appendPhase line st) (appendPhaseS line sts) := by
  obtain ⟨h1, h2, h3, h4, h5⟩ := h
  refine ⟨h1, ?_, ?_, h4, h5⟩
  · show st.buf ++ [line] = bufS _
    simp [bufS, appendPhaseS, h2, List.append_assoc]
  · show st.bufLen + (line.length + 1) = bufLenOf (bufS _)
    simp [bufS, appendPhaseS, h3, bufLenOf]
    omega

theorem paragraphPhase_sim (mc : Nat) (next : Option (List Char)) {st : SplitSt}
    {sts : SplitStS} (h : SplitRel st sts) :
    SplitRel (paragraphPhase mc next st) (paragraphPhaseS mc next sts) := by
  obtain ⟨h1, h2, h3, h4, h5⟩ := h
  unfold paragraphPhase paragraphPhaseS
  by_cases hcond : (!sts.inFence && decide ((3 * mc) / 4 ≤ bufLenOf (bufS sts)) &&
      (match next with
       | none => true
       | some n => (trimCh n).isEmpty)) = true
  · rw [if_pos (by rw [h4, h3]; exact hcond), if_pos hcond]
    refine ⟨?_, ?_, ?_, ?_, ?_⟩
    · rw [pushChunk_chunks]
      simp only [pushSeg]
      rw [filter_render_snoc, ← h1, pushSeg_render, h2]
      simp
    · show ([] : List (List Char)) = bufS _
      simp [bufS, pushSeg]
    · show 0 = bufLenOf (bufS _)
      simp [bufS, pushSeg, bufLenOf]
    · show st.inFence = sts.inFence
      exact h4
    · show st.fenceLine = sts.fenceLine
      exact h5
  · rw [if_neg (by rw [h4, h3]; exact hcond), if_neg hcond]
    exact ⟨h1, h2, h3, h4, h5⟩

theorem splitStep_sim (mc : Nat) (line : List Char) (next : Option (List Char))
    {st : SplitSt} {sts : SplitStS} (h : SplitRel st sts) :
    SplitRel (splitStep mc line next st) (splitStepS mc line next sts) :=
  paragraphPhase_sim mc next
    (appendPhase_sim line (overflowPhase_sim mc line (fencePhase_sim line h)))

theorem fencePhaseS_fields (line : List Char) (sts : SplitStS) :
    (fencePhaseS line sts).segs = sts.segs ∧
    (fencePhaseS line sts).pref = sts.pref ∧
    (fencePhaseS line sts).body = sts.body := by
  unfold fencePhaseS; split_ifs <;> exact ⟨rfl, rfl, rfl⟩

theorem fencePhaseS_fenceLine (line : List Char) (sts : SplitStS)
    (h : startsWithCh fenceMarker sts.fenceLine = true) :
    startsWithCh fenceMarker (fencePhaseS line sts).fenceLine = true := by
  unfold fencePhaseS
  split_ifs with hA hB
  · exact hA
  · exact h
  · exact h

theorem overflowPhaseS_inv (mc : Nat) (line : List Char) (sts : SplitStS)
    (hchain : chainFrom false sts.segs)
    (hpref : prefOk (lastClosed false sts.segs) sts.pref)
    (hfl : startsWithCh fenceMarker sts.fenceLine = true) :
    chainFrom false (overflowPhaseS mc line sts).segs ∧
    prefOk (lastClosed false (overflowPhaseS mc line sts).segs)
      (overflowPhaseS mc line sts).pref ∧
    ((overflowPhaseS mc line sts).segs.map Seg.body).join ++
        (overflowPhaseS mc line sts).body =
      (sts.segs.map Seg.body).join ++ sts.body ∧
    (overflowPhaseS mc line sts).fenceLine = sts.fenceLine ∧
    (overflowPhaseS mc line sts).inFence = sts.inFence := by
  unfold overflowPhaseS
  split_ifs with hc hf
  · refine ⟨?_, ?_, ?_, rfl, rfl⟩
    · show chainFrom false (pushSeg true sts).segs
      exact chainFrom_snoc false sts.segs ⟨sts.pref, sts.body, true⟩ hchain hpref
    · show prefOk (lastClosed false (pushSeg true sts).segs) (some sts.fenceLine)
      simp only [pushSeg]
      rw [lastClosed_snoc]
      exact ⟨sts.fenceLine, rfl, hfl⟩
    · show ((pushSeg true sts).segs.map Seg.body).join ++ (pushSeg true sts).body = _
      simp [pushSeg]
  · refine ⟨?_, ?_, ?_, rfl, rfl⟩
    · exact chainFrom_snoc false sts.segs ⟨sts.pref, sts.body, false⟩ hchain hpref
    · simp only [pushSeg]
      rw [lastClosed_snoc]
      rfl
    · simp [pushSeg]
  · exact ⟨hchain, hpref, rfl, rfl, rfl⟩

theorem appendPhaseS_inv (line : List Char) (sts : SplitStS) :
    (appendPhaseS line sts).segs = sts.segs ∧
    (appendPhaseS line sts).pref = sts.pref ∧
    ((appendPhaseS line sts).segs.map Seg.body).join ++ (appendPhaseS line sts).body =
      ((sts.segs.map Seg.body).join ++ sts.body) ++ [line] ∧
    (appendPhaseS line sts).fenceLine = sts.fenceLine ∧
    (appendPhaseS line sts).inFence = sts.inFence := by
  refine ⟨rfl, rfl, ?_, rfl, rfl⟩
  simp [appendPhaseS]

theorem paragraphPhaseS_inv (mc : Nat) (next : Option (List Char)) (sts : SplitStS)
    (hchain : chainFrom false sts.segs)
    (hpref : prefOk (lastClosed false sts.segs) sts.pref) :
    chainFrom false (paragraphPhaseS mc next sts).segs ∧
    prefOk (lastClosed false (paragraphPhaseS mc next sts).segs)
      (paragraphPhaseS mc next sts).pref ∧
    ((paragraphPhaseS mc next sts).segs.map Seg.body).join ++
        (paragraphPhaseS mc next sts).body =
      (sts.segs.map Seg.body).join ++ sts.body ∧
    (paragraphPhaseS mc next sts).fenceLine = sts.fenceLine := by
  unfold paragraphPhaseS
  split_ifs with hc
  · refine ⟨?_, ?_, ?_, rfl⟩
    · exact chainFrom_snoc false sts.segs ⟨sts.pref, sts.body, false⟩ hchain hpref
    · simp only [pushSeg]
      rw [lastClosed_snoc]
      rfl
    · simp [pushSeg]
  · exact ⟨hchain, hpref, rfl, rfl⟩

theorem splitStepS_inv (mc : Nat) (line : List Char) (next : Option (List Char))
    (sts : SplitStS)
    (hchain : chainFrom false sts.segs)
    (hpref : prefOk (lastClosed false sts.segs) sts.pref)
    (hfl : startsWithCh fenceMarker sts.fenceLine = true) :
    chainFrom false (splitStepS mc line next sts).segs ∧
    prefOk (lastClosed false (splitStepS mc line next sts).segs)
      (splitStepS mc line next sts).pref ∧
    ((splitStepS mc line next sts).segs.map Seg.body).join ++
        (splitStepS mc line next sts).body =
      ((sts.segs.map Seg.body).join ++ sts.body) ++ [line] ∧
    startsWithCh fenceMarker (splitStepS mc line next sts).fenceLine = true := by
  obtain ⟨hf1, hf2, hf3⟩ := fencePhaseS_fields line sts
  have hffl := fencePhaseS_fenceLine line sts hfl
  have hchain1 : chainFrom false (fencePhaseS line sts).segs := by
    rw [hf1]; exact hchain
  have hpref1 : prefOk (lastClosed false (fencePhaseS line sts).segs)
      (fencePhaseS line sts).pref := by
    rw [hf1, hf2]; exact hpref
  have ho := overflowPhaseS_inv mc line (fencePhaseS line sts) hchain1 hpref1 hffl
  have ha := appendPhaseS_inv line (overflowPhaseS mc line (fencePhaseS line sts))
  have hchain2 : chainFrom false
      (appendPhaseS line (overflowPhaseS mc line (fencePhaseS line sts))).segs := by
    rw [ha.1]; exact ho.1
  have hpref2 : prefOk
      (lastClosed false
        (appendPhaseS line (overflowPhaseS mc line (fencePhaseS line sts))).segs)
      (appendPhaseS line (overflowPhaseS mc line (fencePhaseS line sts))).pref := by
    rw [ha.1, ha.2.1]; exact ho.2.1
  have hp := paragraphPhaseS_inv mc next
    (appendPhaseS line (overflowPhaseS mc line (fencePhaseS line sts)))
    hchain2 hpref2
  unfold splitStepS
  refine ⟨hp.1, hp.2.1, ?_, ?_⟩
  · rw [hp.2.2.1, ha.2.2.1, ho.2.2.1, hf1, hf3]
  · rw [hp.2.2.2, ha.2.2.2.1, ho.2.2.2.1]
    exact hffl

theorem splitLoopS_inv (mc : Nat) (lines : List (List Char)) :
    ∀ (sts : SplitStS),
      chainFrom false sts.segs →
      prefOk (lastClosed false sts.segs) sts.pref →
      startsWithCh fenceMarker sts.fenceLine = true →
      chainFrom false (splitLoopS mc lines sts).segs ∧
      prefOk (lastClosed false (splitLoopS mc lines sts).segs)
        (splitLoopS mc lines sts).pref ∧
      ((splitLoopS mc lines sts).segs.map Seg.body).join ++
          (splitLoopS mc lines sts).body =
        ((sts.segs.map Seg.body).join ++ sts.body) ++ lines ∧
      startsWithCh fenceMarker (splitLoopS mc lines sts).fenceLine = true := by
  induction lines with
  | nil =>
    intro sts hchain hpref hfl
    exact ⟨hchain, hpref, by simp [splitLoopS], hfl⟩
  | cons l rest ih =>
    intro sts hchain hpref hfl
    have hstep := splitStepS_inv mc l rest.head? sts hchain hpref hfl
    have hrec := ih (splitStepS mc l rest.head? sts) hstep.1 hstep.2.1 hstep.2.2.2
    have hl : splitLoopS mc (l :: rest) sts =
        splitLoopS mc rest (splitStepS mc l rest.head? sts) := rfl
    rw [hl]
    refine ⟨hrec.1, hrec.2.1, ?_, hrec.2.2.2⟩
    rw [hrec.2.2.1, hstep.2.2.1]
    simp

theorem splitLoop_simAll (mc : Nat) (lines : List (List Char)) :
    ∀ {st : SplitSt} {sts : SplitStS}, SplitRel st sts →
      SplitRel (splitLoop mc lines st) (splitLoopS mc lines sts) := by
  induction lines with
  | nil => intro st sts h; exact h
  | cons l rest ih =>
    intro st sts h
    exact ih (splitStep_sim mc l rest.head? h)

theorem pushChunk_pushSeg_chunks {st : SplitSt} {sts : SplitStS}
    (h : SplitRel st sts) :
    (pushChunk st).chunks =
      (((pushSeg false sts).segs).map renderSeg).filter (fun c => !c.isEmpty) := by
  obtain ⟨h1, h2, h3, h4, h5⟩ := h
  rw [pushChunk_chunks]
  simp only [pushSeg]
  rw [filter_render_snoc, ← h1, pushSeg_render, h2]
  simp

theorem trimCh_subset {c : Char} {l : List Char} (h : c ∈ trimCh l) : c ∈ l := by
  unfold trimCh trimEndCh at h
  have h2 : c ∈ (trimStartCh l).reverse.dropWhile jsWhitespace := by
    simpa using h
  have h3 : c ∈ (trimStartCh l).reverse :=
    ((trimStartCh l).reverse.dropWhile_sublist jsWhitespace).subset h2
  have h4 : c ∈ trimStartCh l := by simpa using h3
  exact (l.dropWhile_sublist jsWhitespace).subset h4

theorem renderSeg_not_empty {sg : Seg} {l : List Char}
    (hmem : l ∈ sg.body) (hl : startsWithCh fenceMarker (trimCh l) = true) :
    (renderSeg sg).isEmpty = false := by
  rw [Bool.eq_false_iff]
  intro hempty
  have hnil : renderSeg sg = [] := by simpa using hempty
  unfold renderSeg at hnil
  have hws := trimEndCh_eq_nil_all_ws _ hnil
  have hpre : fenceMarker <+: trimCh l := by
    simpa [startsWithCh, List.isPrefixOf_iff_prefix] using hl
  have hbt_trim : (Char.ofNat 96) ∈ trimCh l :=
    hpre.sublist.subset (by decide)
  have hbt : (Char.ofNat 96) ∈ l := trimCh_subset hbt_trim
  have hj : (Char.ofNat 96) ∈ joinLinesCh
      (sg.reopen.toList ++ sg.body ++ (if sg.closed then [fenceMarker] else [])) :=
    mem_joinLinesCh (by simp [hmem]) hbt
  have := hws _ hj
  exact absurd this (by decide)

theorem map_data_mk (X : List (List Char)) :
    (X.map String.mk).map String.data = X := by
  induction X with
  | nil => rfl
  | cons a t ih =>
    simp only [List.map_cons]
    exact congrArg (a :: ·) ih

theorem join_map_snoc (segs : List Seg) (sg : Seg) :
    ((segs ++ [sg]).map Seg.body).join = (segs.map Seg.body).join ++ sg.body := by
  induction segs with
  | nil => simp
  | cons a t ih => simp [ih]

/-- C2 (amended): for every input longer than the threshold that contains
a fence line (in particular every input containing a fenced code block
longer than the threshold), the chunks are exactly the renderings of the
segment decomposition `segsOf`: the segments partition the original lines
in order with no loss, duplication or reordering; a synthetic reopening
fence line occurs exactly after a chunk that was closed inside a fence and
a synthetic closing fence exactly on such chunks; each chunk is the
line-join of its segment with its synthetic fence lines, trimmed of
trailing whitespace, and whitespace-only chunks are dropped.  Removing the
synthetic fence lines therefore reproduces the original text exactly up to
the trailing whitespace (including blank lines) trimmed at each split
point — but not beyond, as `c2_counterexample` shows. -/
theorem c2_chunk_segments (text : String) (maxChars : Nat)
    (hlong : maxChars < (replaceCRLF text.data).length)
    (hfence : ∃ l ∈ splitLinesCh (replaceCRLF text.data),
        startsWithCh fenceMarker (trimCh l) = true) :
    ((segsOf text maxChars).map Seg.body).join
        = splitLinesCh (replaceCRLF text.data) ∧
    chainFrom false (segsOf text maxChars) ∧
    (splitMarkdownIntoChunks text maxChars).map String.data =
      ((segsOf text maxChars).map renderSeg).filter (fun c => !c.isEmpty) := by
  have hrel0 : SplitRel splitInit ⟨[], none, [], false, fenceMarker⟩ :=
    ⟨rfl, rfl, rfl, rfl, rfl⟩
  have hrel := splitLoop_simAll maxChars
    (splitLinesCh (replaceCRLF text.data)) hrel0
  have hinv := splitLoopS_inv maxChars (splitLinesCh (replaceCRLF text.data))
    ⟨[], none, [], false, fenceMarker⟩ trivial rfl (by decide)
  set src := replaceCRLF text.data with hsrc
  set lines := splitLinesCh src with hlinesEq
  set stL := splitLoop maxChars lines splitInit with hstL
  set sts := splitLoopS maxChars lines ⟨[], none, [], false, fenceMarker⟩ with hsts
  have hjoin0 : (sts.segs.map Seg.body).join ++ sts.body = lines := by
    have := hinv.2.2.1
    simpa using this
  have h0 : src.isEmpty = false := by
    rcases hsrcv : src with _ | ⟨c, cs⟩
    · rw [hsrcv] at hlong; simp at hlong
    · rfl
  have h1 : decide (src.length ≤ maxChars) = false :=
    decide_eq_false (by omega)
  -- the final states reached by the two machines
  have hbufEq : stL.buf = bufS sts := hrel.2.1
  have hmain : splitMarkdownIntoChunks text maxChars =
      (if ((if stL.buf.isEmpty then stL else pushChunk stL).chunks).isEmpty
       then [String.mk (src.take maxChars)]
       else ((if stL.buf.isEmpty then stL else pushChunk stL).chunks).map
         String.mk) := by
    simp only [splitMarkdownIntoChunks]
    rw [h0, h1]
    simp only [Bool.false_eq_true, if_false]
  have hsegsOf : segsOf text maxChars =
      (if (bufS sts).isEmpty then sts.segs else (pushSeg false sts).segs) := by
    simp only [segsOf]
  -- the flushed chunk list is the rendering of the final segments
  have hchunksF : (if stL.buf.isEmpty then stL else pushChunk stL).chunks =
      ((segsOf text maxChars).map renderSeg).filter (fun c => !c.isEmpty) := by
    rw [hsegsOf, hbufEq]
    by_cases hb : (bufS sts).isEmpty
    · rw [if_pos hb, if_pos hb]
      exact hrel.1
    · rw [if_neg hb, if_neg hb]
      exact pushChunk_pushSeg_chunks hrel
  -- the final segments partition the lines
  have hjoinF : ((segsOf text maxChars).map Seg.body).join = lines := by
    rw [hsegsOf]
    by_cases hb : (bufS sts).isEmpty
    · rw [if_pos hb]
      have hbuf : bufS sts = [] := List.isEmpty_iff.mp hb
      have hbody : sts.body = [] := by
        have := List.append_eq_nil.mp hbuf
        exact this.2
      rw [hbody] at hjoin0
      simpa using hjoin0
    · rw [if_neg hb]
      show ((sts.segs ++ [(⟨sts.pref, sts.body, false⟩ : Seg)]).map Seg.body).join = lines
      rw [join_map_snoc]
      exact hjoin0
  -- the chain property of the final segments
  have hchainF : chainFrom false (segsOf text maxChars) := by
    rw [hsegsOf]
    by_cases hb : (bufS sts).isEmpty
    · rw [if_pos hb]
      exact hinv.1
    · rw [if_neg hb]
      exact chainFrom_snoc false sts.segs ⟨sts.pref, sts.body, false⟩
        hinv.1 hinv.2.1
  -- the fence line guarantees a non-empty chunk
  obtain ⟨lf, hlf, hlfence⟩ := hfence
  have hlf' : lf ∈ ((segsOf text maxChars).map Seg.body).join := by
    rw [hjoinF]; exact hlf
  obtain ⟨bl, hbl, hlfin⟩ := List.mem_join.mp hlf'
  obtain ⟨sg, hsg, hsgeq⟩ := List.mem_map.mp hbl
  have hrend := renderSeg_not_empty (hsgeq ▸ hlfin) hlfence
  have hne : ((segsOf text maxChars).map renderSeg).filter
      (fun c => !c.isEmpty) ≠ [] := by
    intro hnil
    have hmem : renderSeg sg ∈ ((segsOf text maxChars).map renderSeg).filter
        (fun c => !c.isEmpty) :=
      List.mem_filter.mpr ⟨List.mem_map_of_mem renderSeg hsg, by rw [hrend]; rfl⟩
    rw [hnil] at hmem
    simp at hmem
  refine ⟨hjoinF, hchainF, ?_⟩
  rw [hmain, hchunksF]
  rw [if_neg (by simpa [List.isEmpty_iff] using hne)]
  exact map_data_mk _

/-- Witness for C2 at the concrete fenced input. -/
theorem c2_chunk_segments_witness :
    (8 < (replaceCRLF fenceRoundTripInput.data).length) ∧
    ((splitLinesCh (replaceCRLF fenceRoundTripInput.data)).any
      (fun l => startsWithCh fenceMarker (trimCh l))) = true ∧
    (((segsOf fenceRoundTripInput 8).map Seg.body).join
        = splitLinesCh (replaceCRLF fenceRoundTripInput.data) ∧
     chainFrom false (segsOf fenceRoundTripInput 8) ∧
     (splitMarkdownIntoChunks fenceRoundTripInput 8).map String.data =
       ((segsOf fenceRoundTripInput 8).map renderSeg).filter
         (fun c => !c.isEmpty)) := by
  refine ⟨by decide, by decide, ?_⟩
  exact c2_chunk_segments fenceRoundTripInput 8 (by decide)
    (List.any_eq_true.mp (by decide))
